import Mathlib

/-!
Shallow embedding of the lenso2 signaling and transcription server
(`src/lenso2/index.ts` and `src/lenso2/transcription.ts`).

Conventions used throughout:
* JS `Map` objects (`peers`, `rooms`) are modelled as insertion-ordered
  association lists keyed by the entry's own `id` field; `Map.set` replaces
  in place (keeping the original position) or appends, `Map.delete` removes,
  `Map.values()` / `forEach` iterate in insertion order, exactly as JS `Map`.
* `Date.now()` is passed in explicitly as a `now : Nat` argument; all
  readings of the clock within one handler invocation are modelled as the
  same instant.
* WebSocket sends are collected as a list of `(recipient peer id, message)`
  pairs instead of being performed; every connection is identified by the
  peer id generated for it at open time.
* Fallible code is modelled with `Except`: a JS exception escaping a handler
  is `Except.error ()`.
* Byte buffers (`Uint8Array`) are `List Nat` (each element a byte value).
* The external Gemini HTTP gateway is modelled by a `GeminiOutcome` value
  passed to the handler: either the fetch/json step throws
  (`networkError`) or it yields a decoded response body.
-/

deriving instance DecidableEq for Except

/-- JS `x || dflt` for an optional string field: `undefined`/`null` and the
empty string are falsy, any other string is returned as-is. -/
def jsOrDefault (o : Option String) (d : String) : String :=
  match o with
  | some s => if s = "" then d else s
  | none => d

/-- JS truthiness of an optional string: present and non-empty. -/
def truthyStr (o : Option String) : Bool :=
  match o with
  | some s => s ≠ ""
  | none => false

/-- A connected signaling peer (`interface Peer` in `index.ts`): id, the
negotiated Cloudflare session id, published track names, owning room id.
The `ws` handle is not modelled; sends are collected by recipient id. -/
structure Peer where
  id : String
  sessionId : Option String
  trackNames : List String
  roomId : Option String
deriving Repr, DecidableEq

/-- The public projection of a peer sent in `existing-peers` snapshots. -/
structure PeerInfo where
  id : String
  sessionId : Option String
  tracks : List String
deriving Repr, DecidableEq

/-- Outbound signaling messages built by the server handlers. -/
inductive OutMsg where
  | welcome (id : String)
  | existingPeers (peers : List PeerInfo)
  | peerJoined (id : String) (sessionId : Option String) (tracks : Option (List String))
  | peerLeft (id : String)
  | transcriptionStarted (meetingId : Nat)
  | transcriptionStopped (summary : Option String)
  | transcription (text : String) (timestamp : Nat)
deriving Repr, DecidableEq

/-- A send performed by a handler: recipient connection (by peer id) and message. -/
abbrev Send := String × OutMsg

/-- Per-room state (`interface Room` in `transcription.ts`): current meeting
row id, whether transcription is active, the speech-segmentation
accumulation buffer, and the segmenter timestamps/flag. -/
structure Room where
  id : String
  meetingId : Option Nat
  transcriptionActive : Bool
  audioBuffer : List (List Nat)
  lastProcessedTime : Nat
  lastSpeechTime : Nat
  hasSpeech : Bool
deriving Repr, DecidableEq

/-- A row of the `meetings` table. -/
structure MeetingRow where
  id : Nat
  room_id : String
  started_at : Nat
  ended_at : Option Nat
  participant_count : Nat
  duration_seconds : Option Nat
deriving Repr, DecidableEq

/-- A row of the `transcriptions` table; rows are listed in rowid
(insertion) order. -/
structure TranscriptionRow where
  meeting_id : Nat
  transcription_text : String
  created_at : Nat
deriving Repr, DecidableEq

/-- A row of the `meeting_summaries` table. -/
structure SummaryRow where
  meeting_id : Nat
  summary_text : String
  created_at : Nat
deriving Repr, DecidableEq

/-- The SQLite database: the three tables, in rowid (insertion) order, plus
the next AUTOINCREMENT id for `meetings`. -/
structure Db where
  meetings : List MeetingRow
  transcriptions : List TranscriptionRow
  summaries : List SummaryRow
  nextMeetingId : Nat
deriving Repr, DecidableEq

/-- `createMeeting` (`transcription.ts`): INSERT INTO meetings with
`started_at = now`, `participant_count = 0`; returns the fresh rowid. -/
def createMeeting (db : Db) (roomId : String) (now : Nat) : Db × Nat :=
  let mid := db.nextMeetingId
  (⟨db.meetings ++ [⟨mid, roomId, now, none, 0, none⟩],
    db.transcriptions, db.summaries, mid + 1⟩, mid)

/-- `saveTranscription` (`transcription.ts`): INSERT INTO transcriptions
with `created_at = now`. -/
def saveTranscription (db : Db) (meetingId : Nat) (text : String) (now : Nat) : Db :=
  { db with transcriptions := db.transcriptions ++ [⟨meetingId, text, now⟩] }

/-- `endMeeting` (`transcription.ts`): UPDATE the meeting row, setting
`ended_at`, `participant_count`, and `duration_seconds = (now - started_at)
/ 1000` (SQLite integer division). -/
def endMeeting (db : Db) (meetingId : Nat) (participantCount : Nat) (now : Nat) : Db :=
  { db with
    meetings := db.meetings.map fun r =>
      if r.id = meetingId then
        { r with
          ended_at := some now
          participant_count := participantCount
          duration_seconds := some ((now - r.started_at) / 1000) }
      else r }

/-- `saveSummary` (`transcription.ts`): INSERT INTO meeting_summaries. -/
def saveSummary (db : Db) (meetingId : Nat) (text : String) (now : Nat) : Db :=
  { db with summaries := db.summaries ++ [⟨meetingId, text, now⟩] }

/-- Stable insertion of a row into a list sorted by `created_at` ascending:
the row goes after every row with `created_at` strictly smaller, and before
rows with `created_at` greater than or equal, so that among equal keys the
earlier (smaller rowid) row stays first. -/
def insertRow (r : TranscriptionRow) : List TranscriptionRow → List TranscriptionRow
  | [] => [r]
  | x :: xs => if x.created_at < r.created_at then x :: insertRow r xs else r :: x :: xs

/-- Stable sort of transcription rows by `created_at` ascending, modelling
SQLite `ORDER BY created_at ASC` with rowid order as tiebreak. -/
def sortRows (l : List TranscriptionRow) : List TranscriptionRow :=
  l.foldr insertRow []

/-- `getTranscriptions` (`transcription.ts`): SELECT transcription_text
FROM transcriptions WHERE meeting_id = ? ORDER BY created_at ASC. -/
def getTranscriptions (db : Db) (meetingId : Nat) : List String :=
  (sortRows (db.transcriptions.filter fun r => r.meeting_id == meetingId)).map
    (·.transcription_text)

/-- Decode one little-endian signed 16-bit sample from two bytes
(`new Int16Array(audioData.buffer)` element). -/
def toInt16 (lo hi : Nat) : Int :=
  let v := lo + 256 * hi
  if v < 32768 then (v : Int) else (v : Int) - 65536

/-- View a byte buffer as its Int16 samples, consecutive little-endian
pairs (`new Int16Array(audioData.buffer)`; PCM chunks have even length —
JS would raise on an odd-length buffer, which never arises here). -/
def bytesToSamples : List Nat → List Int
  | lo :: hi :: rest => toInt16 lo hi :: bytesToSamples rest
  | _ => []

/-- `detectSpeech` (`index.ts`): normalize each sample to `[-1,1]` by
dividing by 32768, sum the squares, take `rms = sqrt(sum/n)`,
`db = 20*log10(rms)`, and report speech iff `db > -40`.
Since `sqrt` and `log10` are strictly monotone and both sides are
non-negative, for `n > 0` this is `sum/n > 10^(-4)` with
`sum = Σ (sᵢ/32768)² = (Σ sᵢ²)/32768²`, i.e. exactly
`10000 * Σ sᵢ² > n * 32768²`, which the model computes in `ℤ`.
For `n = 0`, JS yields `rms = NaN`, `db = NaN`, and `NaN > -40` is false;
for an all-zero chunk `rms = 0`, `db = -Infinity > -40` is false — both
agree with `10000 * 0 > n * 32768²` being false. The JS function never
raises (JS float division never throws); the model is total. -/
def detectSpeech (audioData : List Nat) : Bool :=
  let samples := bytesToSamples audioData
  let sumSq : Int := (samples.map fun s => s * s).sum
  decide (10000 * sumSq > (samples.length : Int) * (32768 * 32768))

/-- One audio chunk through the speech segmenter: the body of the
`/gemini` `onMessage` handler from the `transcriptionActive` guard up to
(and including) the buffer-combining step (`index.ts` lines 1267–1317).
Returns the updated room state and, when a pause boundary fires, the
finalized utterance: the byte-wise concatenation of the buffered chunks
in arrival order (the `reduce`/`set` loop over `room.audioBuffer`). -/
def segmentStep (now : Nat) (room : Room) (chunk : List Nat) : Room × Option (List Nat) :=
  if room.transcriptionActive = false then (room, none)
  else
    let chunkHasSpeech := detectSpeech chunk
    if chunkHasSpeech then
      ({ room with
          audioBuffer := room.audioBuffer ++ [chunk]
          lastSpeechTime := now
          hasSpeech := true }, none)
    else if room.hasSpeech && room.audioBuffer.length > 0 then
      let timeSinceLastSpeech : Int := (now : Int) - (room.lastSpeechTime : Int)
      if timeSinceLastSpeech > 500 && room.audioBuffer.length ≥ 3 then
        ({ room with
            audioBuffer := []
            hasSpeech := false
            lastProcessedTime := now }, some room.audioBuffer.flatten)
      else (room, none)
    else (room, none)

/-- Run a timed chunk stream through `segmentStep` in order, collecting
the emitted utterances. -/
def segmentRun : Room → List (Nat × List Nat) → Room × List (List Nat)
  | room, [] => (room, [])
  | room, nc :: rest =>
    let r := segmentStep nc.1 room nc.2
    let later := segmentRun r.1 rest
    (later.1, r.2.toList ++ later.2)

/-- The `content` field of a Gemini response candidate, as probed by
`transcribeAudioWithGemini`: either a plain object (with its number of
own keys and the value of `content.parts[0].text` when that path exists)
or an array (with each element's `.text`). `Object.keys` of an array is
its index list, so the key count of an array is its length. -/
inductive GContent where
  | obj (keyCount : Nat) (partsHeadText : Option String)
  | arr (elemTexts : List (Option String))
deriving Repr, DecidableEq

/-- One element of `data.candidates`. -/
structure GCandidate where
  content : Option GContent
  text : Option String
deriving Repr, DecidableEq

/-- Outcome of one call to the external Gemini HTTP gateway: the
`fetch`/`response.json()` step throws, or it yields a decoded body whose
`candidates` field is absent or a list. -/
inductive GeminiOutcome where
  | networkError
  | response (candidates : Option (List GCandidate))
deriving Repr, DecidableEq

/-- JS `String.prototype.trim()`: strip leading and trailing whitespace.
Defined over the character list so that it evaluates by kernel reduction. -/
def jsTrim (s : String) : String :=
  ⟨((s.data.dropWhile Char.isWhitespace).reverse.dropWhile Char.isWhitespace).reverse⟩

/-- `candidate.content?.parts?.[0]?.text`: only an object content with a
non-missing parts head text. -/
def objPartsHeadText : Option GContent → Option String
  | some (.obj _ t) => t
  | _ => none

/-- `Array.isArray(candidate.content) && candidate.content[0]?.text`. -/
def arrHeadText : Option GContent → Option String
  | some (.arr (t :: _)) => t
  | _ => none

/-- `Object.keys(content).length`. -/
def contentKeyCount : GContent → Nat
  | .obj k _ => k
  | .arr es => es.length

/-- `transcribeAudioWithGemini` (`transcription.ts`): POST the WAV-wrapped
audio, then probe the decoded response defensively. Structure 1:
`content.parts[0].text`; structure 2: `content` is an array and
`content[0].text`; structure 3: `candidate.text`; structure 4: `content`
present with at most one key (empty content, no speech) returns `""`, as
does the unexpected-structure fallthrough. Every error is caught and
yields `""`. The audio bytes themselves only parameterize the outbound
request, so the model's input is the gateway outcome. -/
def transcribeAudioWithGemini : GeminiOutcome → String
  | .networkError => ""
  | .response none => ""
  | .response (some []) => ""
  | .response (some (c :: _)) =>
    if truthyStr (objPartsHeadText c.content) then
      jsTrim ((objPartsHeadText c.content).getD "")
    else if truthyStr (arrHeadText c.content) then
      jsTrim ((arrHeadText c.content).getD "")
    else if truthyStr c.text then
      jsTrim (c.text.getD "")
    else
      -- structure 4 (content with ≤ 1 key) returns "", and so does the
      -- unexpected-structure fallthrough
      ""

/-- The `rooms` map of `transcription.ts` together with the database: the
state the Transcription Session Manager operates on. -/
structure TState where
  rooms : List Room
  db : Db
deriving Repr, DecidableEq

/-- `rooms.get(roomId)`. -/
def roomsGet (rs : List Room) (roomId : String) : Option Room :=
  rs.find? fun r => r.id == roomId

/-- `rooms.set(room.id, room)`: replace in place when the key exists
(JS `Map.set` keeps the original position), otherwise append. -/
def roomsSet (rs : List Room) (room : Room) : List Room :=
  if rs.any (fun r => r.id == room.id) then
    rs.map fun r => if r.id == room.id then room else r
  else rs ++ [room]

/-- `startTranscription` (`transcription.ts`): create the room entry if
missing (inactive, fresh segmenter state); when the room is not already
active, create a meeting row, mark the room active, reset the segmenter
state, and return the new meeting id; when the room is already active,
return `null` (modelled `none`) and change nothing. -/
def startTranscription (st : TState) (roomId : String) (now : Nat) : TState × Option Nat :=
  let found := roomsGet st.rooms roomId
  let rooms₁ := match found with
    | some _ => st.rooms
    | none => roomsSet st.rooms ⟨roomId, none, false, [], now, 0, false⟩
  let room := match found with
    | some r => r
    | none => ⟨roomId, none, false, [], now, 0, false⟩
  if room.transcriptionActive = false then
    let created := createMeeting st.db roomId now
    let room₁ : Room :=
      { room with
        transcriptionActive := true
        meetingId := some created.2
        audioBuffer := []
        lastProcessedTime := now
        lastSpeechTime := 0
        hasSpeech := false }
    (⟨roomsSet rooms₁ room₁, created.1⟩, some created.2)
  else
    (⟨rooms₁, st.db⟩, none)

/-- `generateMeetingSummary` (`transcription.ts`): fetch the meeting's
transcriptions in chronological order; when there are none, return `""`
without contacting the gateway. Otherwise send the joined transcript to
the Gemini gateway; on the `candidates[0].content.parts[0].text` shape
(truthy), persist and return the summary; any other shape and any thrown
error yield `""`. The third component records whether the summarization
gateway was actually contacted. -/
def generateMeetingSummary (gw : GeminiOutcome) (now : Nat) (db : Db) (meetingId : Nat) :
    Db × String × Bool :=
  let transcriptions := getTranscriptions db meetingId
  if transcriptions.length = 0 then (db, "", false)
  else
    match gw with
    | .networkError => (db, "", true)
    | .response none => (db, "", true)
    | .response (some []) => (db, "", true)
    | .response (some (c :: _)) =>
      if truthyStr (objPartsHeadText c.content) then
        let summary := (objPartsHeadText c.content).getD ""
        (saveSummary db meetingId summary now, summary, true)
      else (db, "", true)

/-- Result of `stopTranscription`: in JS, `{stopped: true, summary}` with
`summary` the string from `generateMeetingSummary`, or `{stopped: false}`
with the summary field absent. -/
structure StopResult where
  stopped : Bool
  summary : Option String
deriving Repr, DecidableEq

/-- `stopTranscription` (`transcription.ts`): when the room exists, is
active, and has a meeting id, mark it inactive, finalize the meeting row
(`endMeeting`), then generate the summary; otherwise a no-op returning
`stopped := false`. The third component records whether the summarization
gateway was contacted. -/
def stopTranscription (gw : GeminiOutcome) (st : TState) (roomId : String)
    (participantCount : Nat) (now : Nat) : TState × StopResult × Bool :=
  match roomsGet st.rooms roomId with
  | some room =>
    match room.meetingId with
    | some mid =>
      if room.transcriptionActive then
        let room₁ := { room with transcriptionActive := false }
        let db₁ := endMeeting st.db mid participantCount now
        let sres := generateMeetingSummary gw now db₁ mid
        (⟨roomsSet st.rooms room₁, sres.1⟩, ⟨true, some sres.2.1⟩, sres.2.2)
      else (st, ⟨false, none⟩, false)
    | none => (st, ⟨false, none⟩, false)
  | none => (st, ⟨false, none⟩, false)

/-- `handleRoomEmpty` (`transcription.ts`): when the room has an active
meeting, finalize the meeting row with the participant-count sentinel 1,
mark the room inactive, and generate the summary; otherwise a no-op. -/
def handleRoomEmpty (gw : GeminiOutcome) (st : TState) (roomId : String) (now : Nat) : TState :=
  match roomsGet st.rooms roomId with
  | some room =>
    match room.meetingId with
    | some mid =>
      if room.transcriptionActive then
        let db₁ := endMeeting st.db mid 1 now
        let room₁ := { room with transcriptionActive := false }
        let sres := generateMeetingSummary gw now db₁ mid
        ⟨roomsSet st.rooms room₁, sres.1⟩
      else st
    | none => st
  | none => st

/-- The persistence step of the `/gemini` handler after an utterance is
finalized (`index.ts` lines 1320–1326): the transcription text is saved
iff it is truthy, its trim is non-empty, and the room has a meeting id. -/
def utteranceSave (room : Room) (db : Db) (transcription : String) (now : Nat) : Db :=
  match room.meetingId with
  | some mid =>
    if transcription ≠ "" ∧ 0 < (jsTrim transcription).length then
      saveTranscription db mid transcription now
    else db
  | none => db

/-- The `/gemini` WebSocket `onMessage` handler (`index.ts`): drop the
chunk when the room is missing or inactive; otherwise run the segmenter
step and, when an utterance is emitted, obtain the transcription from the
Gemini gateway and persist it via `utteranceSave`. (The broadcast of the
resulting `transcription` event to the room's signaling peers does not
touch this state and is omitted here.) -/
def geminiOnMessage (gw : GeminiOutcome) (now : Nat) (st : TState) (roomId : String)
    (chunk : List Nat) : TState :=
  match roomsGet st.rooms roomId with
  | none => st
  | some room =>
    let stepped := segmentStep now room chunk
    match stepped.2 with
    | none => ⟨roomsSet st.rooms stepped.1, st.db⟩
    | some _combined =>
      let transcription := transcribeAudioWithGemini gw
      ⟨roomsSet st.rooms stepped.1, utteranceSave stepped.1 st.db transcription now⟩

/-- The signaling server's mutable state: the `peers` map (insertion
order) together with the transcription state. -/
structure ServerState where
  peers : List Peer
  ts : TState
deriving Repr, DecidableEq

/-- `peers.set(id, peer)`: replace in place when the key exists, keeping
the original position, otherwise append (JS `Map.set`). -/
def peersSet (l : List Peer) (p : Peer) : List Peer :=
  if l.any (fun q => q.id == p.id) then
    l.map fun q => if q.id == p.id then p else q
  else l ++ [p]

/-- The ids held in the peer registry, in insertion order. -/
def peerIds (l : List Peer) : List String :=
  l.map (·.id)

/-- An inbound signaling frame on `/ws`: either a payload `JSON.parse`
rejects, or the decoded object's fields as the handler reads them
(`data.type`, `data.roomId`, `data.sessionId`, `data.tracks`). -/
inductive InboundPayload where
  | malformed
  | json (type : Option String) (roomId : Option String) (sessionId : Option String)
      (tracks : Option (List String))
deriving Repr, DecidableEq

/-- The `/ws` `onOpen` handler: send `welcome` with the generated id; the
registry is untouched (a peer is only registered when its join arrives). -/
def handleWsOpen (st : ServerState) (peerId : String) : ServerState × List Send :=
  (st, [(peerId, OutMsg.welcome peerId)])

/-- The `/ws` `onMessage` handler (`index.ts` lines 1369–1468).
`JSON.parse` is not guarded by a try/catch, so a malformed payload makes
the handler throw (`Except.error ()`) before any state is touched.
A parsed message dispatches on `data.type`:
* `start-transcription`: delegate to `startTranscription`; on success
  broadcast `transcription-started` to the peers of that room.
* `stop-transcription`: count the room's peers, delegate to
  `stopTranscription`; when stopped broadcast `transcription-stopped`.
* `join`: build the peer record; send the new peer an `existing-peers`
  snapshot of ALL currently registered peers (skipped when the registry
  is empty — there is no room filter in the source); broadcast
  `peer-joined` to ALL currently registered peers (again no room
  filter); then register the new peer.
* anything else falls through the if/else chain: no effect, no sends. -/
def handleWsMessage (gw : GeminiOutcome) (now : Nat) (st : ServerState) (peerId : String)
    (payload : InboundPayload) : Except Unit (ServerState × List Send) :=
  match payload with
  | .malformed => .error ()
  | .json type roomIdF sessionId tracks =>
    if type = some "start-transcription" then
      let roomId := jsOrDefault roomIdF "default"
      let started := startTranscription st.ts roomId now
      match started.2 with
      | some mid =>
        let sends := (st.peers.filter fun p => p.roomId == some roomId).map
          fun p => (p.id, OutMsg.transcriptionStarted mid)
        .ok (⟨st.peers, started.1⟩, sends)
      | none => .ok (⟨st.peers, started.1⟩, [])
    else if type = some "stop-transcription" then
      let roomId := jsOrDefault roomIdF "default"
      let participantCount := (st.peers.filter fun p => p.roomId == some roomId).length
      let stopped := stopTranscription gw st.ts roomId participantCount now
      if stopped.2.1.stopped then
        let sends := (st.peers.filter fun p => p.roomId == some roomId).map
          fun p => (p.id, OutMsg.transcriptionStopped stopped.2.1.summary)
        .ok (⟨st.peers, stopped.1⟩, sends)
      else .ok (⟨st.peers, stopped.1⟩, [])
    else if type = some "join" then
      let roomId := jsOrDefault roomIdF "default"
      let peer : Peer := ⟨peerId, sessionId, tracks.getD [], some roomId⟩
      let existingPeers := st.peers.map fun p => PeerInfo.mk p.id p.sessionId p.trackNames
      let snapshotSends : List Send :=
        if existingPeers.length > 0 then [(peerId, OutMsg.existingPeers existingPeers)] else []
      let joinSends : List Send :=
        st.peers.map fun p => (p.id, OutMsg.peerJoined peerId sessionId tracks)
      .ok (⟨peersSet st.peers peer, st.ts⟩, snapshotSends ++ joinSends)
    else
      .ok (st, [])

/-- The `/ws` `onClose` handler (`index.ts` lines 1471–1491): look the
closing peer up (its room defaulting to the literal `"default"` via
`peer?.roomId || "default"` when it never joined), delete it, broadcast
`peer-left` to every remaining registered peer (no room filter in the
source), and when the vacated room now has no registered peers, invoke
`handleRoomEmpty` on it. -/
def handleWsClose (gw : GeminiOutcome) (now : Nat) (st : ServerState) (peerId : String) :
    ServerState × List Send :=
  let peer := st.peers.find? fun p => p.id == peerId
  let roomId := jsOrDefault (peer.bind (·.roomId)) "default"
  let peers₁ := st.peers.filter fun p => p.id != peerId
  let sends : List Send := peers₁.map fun p => (p.id, OutMsg.peerLeft peerId)
  let remainingInRoom := (peers₁.filter fun p => p.roomId == some roomId).length
  if remainingInRoom = 0 then
    (⟨peers₁, handleRoomEmpty gw st.ts roomId now⟩, sends)
  else
    (⟨peers₁, st.ts⟩, sends)

/-- One connection-lifecycle event processed by the signaling coordinator;
message and close events carry the clock reading and the gateway outcome
their handler may consume. -/
inductive Event where
  | wsOpen (peerId : String)
  | wsMsg (peerId : String) (payload : InboundPayload) (gw : GeminiOutcome) (now : Nat)
  | wsClose (peerId : String) (gw : GeminiOutcome) (now : Nat)
deriving Repr, DecidableEq

/-- Apply one event to the server state (sends discarded). A handler that
throws (malformed `JSON.parse`) leaves the state as it was — the exception
fires before any mutation. -/
def stepEvent (st : ServerState) : Event → ServerState
  | .wsOpen peerId => (handleWsOpen st peerId).1
  | .wsMsg peerId payload gw now =>
    match handleWsMessage gw now st peerId payload with
    | .ok r => r.1
    | .error _ => st
  | .wsClose peerId gw now => (handleWsClose gw now st peerId).1

/-- Fold a sequence of events through the coordinator. -/
def runEvents (st : ServerState) (events : List Event) : ServerState :=
  events.foldl stepEvent st

/-- The server's state at startup: no peers, no rooms, empty tables,
AUTOINCREMENT at 1. -/
def initState : ServerState :=
  ⟨[], ⟨[], ⟨[], [], [], 1⟩⟩⟩

/-- The peer id registered by an event, when the event is a join message
(a parsed `/ws` frame whose `type` is `"join"`). -/
def joinPid : Event → Option String
  | .wsMsg pid (.json t _ _ _) _ _ => if t == some "join" then some pid else none
  | _ => none

/-- The peer id removed by an event, when the event is a channel close. -/
def closePid : Event → Option String
  | .wsClose pid _ _ => some pid
  | _ => none

/-- Modelled from the spec's membership rule, for comparison with the
registry the code maintains: starting from `b`, a peer id is registered
after an event sequence iff its most recent join/close event is a join. -/
def joinedNotClosedFrom (b : Bool) (events : List Event) (id : String) : Bool :=
  events.foldl
    (fun acc e =>
      if joinPid e == some id then true
      else if closePid e == some id then false
      else acc) b

/-- A peer id has joined and not closed since, over a whole event
sequence. -/
def joinedNotClosed (events : List Event) (id : String) : Bool :=
  joinedNotClosedFrom false events id

/-- All peer ids that ever appear in a join message of the sequence. -/
def joinIds (events : List Event) : List String :=
  events.filterMap joinPid

/-- A room that is mid-transcription with an empty segmenter buffer:
the state `startTranscription` leaves a fresh room `"default"` in
(meeting id 1 on a fresh database). -/
def demoActiveRoom : Room :=
  ⟨"default", some 1, true, [], 0, 0, false⟩

/-- A speech-classified chunk is appended to the buffer and refreshes the
last-speech timestamp and flag; nothing is emitted. -/
theorem segmentStep_speech (now : Nat) (room : Room) (c : List Nat)
    (hact : room.transcriptionActive = true) (hc : detectSpeech c = true) :
    segmentStep now room c =
      ({ room with
          audioBuffer := room.audioBuffer ++ [c]
          lastSpeechTime := now
          hasSpeech := true }, none) := by
  simp [segmentStep, hact, hc]

/-- A silence chunk after accumulation, with a qualifying pause and a full
enough buffer: the buffer is concatenated and emitted, and cleared. -/
theorem segmentStep_silence_emit (now : Nat) (room : Room) (c : List Nat)
    (hact : room.transcriptionActive = true) (hc : detectSpeech c = false)
    (hflag : room.hasSpeech = true) (hlen : 3 ≤ room.audioBuffer.length)
    (htime : 500 < (now : Int) - (room.lastSpeechTime : Int)) :
    segmentStep now room c =
      ({ room with
          audioBuffer := []
          hasSpeech := false
          lastProcessedTime := now },
        some room.audioBuffer.flatten) := by
  have hpos : 0 < room.audioBuffer.length := by omega
  simp [segmentStep, hact, hc, hflag, hpos, hlen, htime]

/-- A silence chunk after accumulation whose pause is too short or whose
buffer is below the minimum: keep accumulating, change nothing. -/
theorem segmentStep_silence_hold (now : Nat) (room : Room) (c : List Nat)
    (hact : room.transcriptionActive = true) (hc : detectSpeech c = false)
    (h : ¬(500 < (now : Int) - (room.lastSpeechTime : Int)) ∨ room.audioBuffer.length < 3) :
    segmentStep now room c = (room, none) := by
  rcases Nat.eq_zero_or_pos room.audioBuffer.length with hz | hpos
  · simp [segmentStep, hact, hc, hz]
  · rcases h with h | h
    · simp [segmentStep, hact, hc, hpos, h]
    · have : ¬(3 ≤ room.audioBuffer.length) := by omega
      simp [segmentStep, hact, hc, hpos, this]

/-- A silence chunk while no speech has been accumulated is a no-op. -/
theorem segmentStep_silence_idle (now : Nat) (room : Room) (c : List Nat)
    (hact : room.transcriptionActive = true) (hc : detectSpeech c = false)
    (hflag : room.hasSpeech = false) :
    segmentStep now room c = (room, none) := by
  simp [segmentStep, hact, hc, hflag]

/-- C8: a chunk whose Int16 samples are all zero — in particular a chunk
with no samples at all — is classified as non-speech. `detectSpeech` is a
total function of the chunk, which models the JS fact that the RMS
computation raises no division error on a zero sample count (JS float
division yields NaN, and `NaN > -40` is false). -/
theorem C8_zero_samples_classify_non_speech (audioData : List Nat)
    (h : ∀ s ∈ bytesToSamples audioData, s = 0) :
    detectSpeech audioData = false := by
  have hsum : ((bytesToSamples audioData).map fun s => s * s).sum = 0 := by
    apply List.sum_eq_zero
    intro x hx
    rw [List.mem_map] at hx
    obtain ⟨s, hs, rfl⟩ := hx
    rw [h s hs, mul_zero]
  simp only [detectSpeech, hsum, mul_zero, decide_eq_false_iff_not, not_lt]
  positivity

/-- Witness for C8 at a concrete all-zero (and hence also sample-free
prefix) chunk. -/
theorem C8_witness :
    (∀ s ∈ bytesToSamples [0, 0, 0, 0], s = 0) ∧ detectSpeech [0, 0, 0, 0] = false :=
  ⟨by decide, C8_zero_samples_classify_non_speech [0, 0, 0, 0] (by decide)⟩
/-- C4 (counterexample): three speech chunks at 0, 100, 200 ms followed by
silence chunks at 400 and 700 ms, on an active room with an empty buffer.
At the second silence chunk the elapsed time since the last speech chunk
is exactly 500 ms — satisfying the claim's "at least 500 ms" — yet the
segmenter emits nothing, because the source tests
`timeSinceLastSpeech > PAUSE_THRESHOLD_MS` strictly. -/
theorem C4_counterexample :
    detectSpeech [0, 64] = true ∧ detectSpeech [0, 0] = false ∧
    (500 : Int) ≤ (700 : Int) - (200 : Int) ∧
    (segmentRun demoActiveRoom
      [(0, [0, 64]), (100, [0, 64]), (200, [0, 64]), (400, [0, 0]), (700, [0, 0])]).2 = [] := by
  decide

/-- C4 (amended): with the pause threshold read strictly — the code emits
only when strictly more than 500 ms elapsed since the last speech chunk —
the claim holds: on [speech, speech, speech, silence, silence] from an
active room with an empty buffer, if more than 500 ms separate the last
speech chunk from the second silence chunk, exactly one utterance is
emitted, equal to the concatenation of the three speech chunks in arrival
order, and the buffer and accumulation flag are cleared; with a pause of
at most 500 ms, or with only two speech chunks, nothing is emitted and
the buffer is kept. -/
theorem C4_segmenter_amended (room : Room) (c1 c2 c3 s1 s2 : List Nat)
    (t1 t2 t3 t4 t5 : Nat)
    (hact : room.transcriptionActive = true)
    (hbuf : room.audioBuffer = []) (hflag : room.hasSpeech = false)
    (hc1 : detectSpeech c1 = true) (hc2 : detectSpeech c2 = true)
    (hc3 : detectSpeech c3 = true)
    (hs1 : detectSpeech s1 = false) (hs2 : detectSpeech s2 = false)
    (h45 : t4 ≤ t5) :
    (500 < (t5 : Int) - (t3 : Int) →
      (segmentRun room [(t1, c1), (t2, c2), (t3, c3), (t4, s1), (t5, s2)]).2 =
        [c1 ++ c2 ++ c3] ∧
      (segmentRun room [(t1, c1), (t2, c2), (t3, c3), (t4, s1), (t5, s2)]).1.audioBuffer = [] ∧
      (segmentRun room [(t1, c1), (t2, c2), (t3, c3), (t4, s1), (t5, s2)]).1.hasSpeech = false) ∧
    ((t5 : Int) - (t3 : Int) ≤ 500 →
      (segmentRun room [(t1, c1), (t2, c2), (t3, c3), (t4, s1), (t5, s2)]).2 = [] ∧
      (segmentRun room [(t1, c1), (t2, c2), (t3, c3), (t4, s1), (t5, s2)]).1.audioBuffer =
        [c1, c2, c3]) ∧
    ((segmentRun room [(t1, c1), (t2, c2), (t4, s1), (t5, s2)]).2 = [] ∧
      (segmentRun room [(t1, c1), (t2, c2), (t4, s1), (t5, s2)]).1.audioBuffer = [c1, c2]) := by
  obtain ⟨rid, mid, act, buf, lpt, lst, hsflag⟩ := room
  simp only [Room.transcriptionActive] at hact
  simp only [Room.audioBuffer] at hbuf
  simp only [Room.hasSpeech] at hflag
  subst hact hbuf hflag
  refine ⟨?_, ?_, ?_⟩
  · intro h53
    by_cases h43 : (500 : Int) < (t4 : Int) - (t3 : Int)
    · simp [segmentRun, segmentStep, hc1, hc2, hc3, hs1, hs2, h43]
    · simp [segmentRun, segmentStep, hc1, hc2, hc3, hs1, hs2, h43, h53]
  · intro h53
    have h43 : ¬ (500 : Int) < (t4 : Int) - (t3 : Int) := by
      have : (t4 : Int) ≤ (t5 : Int) := by exact_mod_cast h45
      omega
    simp [segmentRun, segmentStep, hc1, hc2, hc3, hs1, hs2, h43, h53, not_lt.mpr h53]
  · simp [segmentRun, segmentStep, hc1, hc2, hs1, hs2]

/-- Witness for C4's amended theorem at concrete chunks and times (the
second silence chunk arrives 501 ms after the last speech chunk). -/
theorem C4_witness :
    (segmentRun demoActiveRoom
      [(0, [0, 64]), (100, [0, 64]), (200, [0, 64]), (400, [0, 0]), (701, [0, 0])]).2 =
      [[0, 64] ++ [0, 64] ++ [0, 64]] :=
  ((C4_segmenter_amended demoActiveRoom [0, 64] [0, 64] [0, 64] [0, 0] [0, 0]
      0 100 200 400 701 rfl rfl rfl (by decide) (by decide) (by decide)
      (by decide) (by decide) (by decide)).1 (by decide)).1

/-- A found room is a member of the map and carries the looked-up id. -/
theorem roomsGet_mem (rs : List Room) (rid : String) (room : Room)
    (h : roomsGet rs rid = some room) : room ∈ rs ∧ room.id = rid := by
  refine ⟨List.mem_of_find?_eq_some h, ?_⟩
  have := List.find?_some h
  simpa using this

/-- A failed lookup means no entry carries the id. -/
theorem roomsGet_eq_none (rs : List Room) (rid : String)
    (h : roomsGet rs rid = none) : ∀ room ∈ rs, room.id ≠ rid := by
  intro room hm
  have := List.find?_eq_none.mp h room hm
  simpa using this

/-- Membership in `roomsSet` when the key is present. -/
theorem mem_roomsSet_present (rs : List Room) (room r : Room)
    (hp : rs.any (fun q => q.id == room.id) = true) :
    r ∈ roomsSet rs room ↔ r = room ∨ (r ∈ rs ∧ r.id ≠ room.id) := by
  unfold roomsSet
  rw [if_pos hp]
  constructor
  · intro hm
    obtain ⟨q, hq, hqe⟩ := List.mem_map.mp hm
    by_cases hid : q.id == room.id
    · left; rw [if_pos hid] at hqe; exact hqe.symm
    · right
      rw [if_neg hid] at hqe
      subst hqe
      exact ⟨hq, by simpa using hid⟩
  · intro hm
    rcases hm with rfl | ⟨hm, hne⟩
    · obtain ⟨q, hq, hqi⟩ := List.any_eq_true.mp hp
      exact List.mem_map.mpr ⟨q, hq, by rw [if_pos hqi]⟩
    · exact List.mem_map.mpr ⟨r, hm, by rw [if_neg (by simpa using hne)]⟩

/-- Membership in `roomsSet` when the key is absent. -/
theorem mem_roomsSet_absent (rs : List Room) (room r : Room)
    (hp : rs.any (fun q => q.id == room.id) = false) :
    r ∈ roomsSet rs room ↔ r ∈ rs ∨ r = room := by
  unfold roomsSet
  rw [if_neg (by simp [hp])]
  simp

/-- Updating a present key leaves the id list unchanged. -/
theorem roomsSet_ids_present (rs : List Room) (room : Room)
    (hp : rs.any (fun q => q.id == room.id) = true) :
    (roomsSet rs room).map (·.id) = rs.map (·.id) := by
  unfold roomsSet
  rw [if_pos hp, List.map_map]
  apply List.map_congr_left
  intro q _
  by_cases hid : q.id == room.id
  · simp only [Function.comp_apply, if_pos hid]
    exact (beq_iff_eq.mp hid).symm
  · simp only [Function.comp_apply, if_neg hid]

/-- Inserting an absent key appends its id. -/
theorem roomsSet_ids_absent (rs : List Room) (room : Room)
    (hp : rs.any (fun q => q.id == room.id) = false) :
    (roomsSet rs room).map (·.id) = rs.map (·.id) ++ [room.id] := by
  unfold roomsSet
  rw [if_neg (by simp [hp]), List.map_append]
  rfl

/-- The ids of a room's meeting rows that are still open (no `ended_at`). -/
def openMeetings (db : Db) (rid : String) : List Nat :=
  (db.meetings.filter fun r => r.room_id == rid && r.ended_at == none).map (·.id)

/-- Creating a meeting appends one open row for its room. -/
theorem openMeetings_createMeeting (db : Db) (r rid : String) (now : Nat) :
    openMeetings (createMeeting db r now).1 rid =
      openMeetings db rid ++ (if r = rid then [db.nextMeetingId] else []) := by
  unfold openMeetings createMeeting
  rw [List.filter_append, List.map_append]
  congr 1
  by_cases h : r = rid
  · have hb : (r == rid) = true := by simp [h]
    simp [List.filter, hb, h]
  · have hb : (r == rid) = false := by simp [h]
    simp [List.filter, hb, h]

/-- The row update performed by `endMeeting` on matching rows. -/
def endRow (mid pc now : Nat) (r : MeetingRow) : MeetingRow :=
  if r.id = mid then
    { r with
      ended_at := some now
      participant_count := pc
      duration_seconds := some ((now - r.started_at) / 1000) }
  else r

/-- `endMeeting` is the row-wise map of `endRow`. -/
theorem endMeeting_eq_map (db : Db) (mid pc now : Nat) :
    endMeeting db mid pc now = { db with meetings := db.meetings.map (endRow mid pc now) } := by
  rfl

/-- Ending meeting `mid` removes exactly the rows with id `mid` from every
room's open list: an updated row always has `ended_at` set, and other
rows are untouched. -/
theorem openMeetings_endMeeting (db : Db) (mid pc now : Nat) (rid : String) :
    openMeetings (endMeeting db mid pc now) rid =
      (openMeetings db rid).filter fun m => !(m == mid) := by
  rw [endMeeting_eq_map]
  unfold openMeetings
  induction db.meetings with
  | nil => rfl
  | cons row rest ih =>
    simp only [List.map_cons, List.filter_cons]
    by_cases hid : row.id = mid
    · have hclosed : ((endRow mid pc now row).room_id == rid &&
          (endRow mid pc now row).ended_at == none) = false := by
        simp [endRow, hid]
      rw [if_neg (by simp [hclosed])]
      by_cases hopen : (row.room_id == rid && row.ended_at == none) = true
      · rw [if_pos hopen]
        simp only [List.map_cons, List.filter_cons]
        simp [hid, ih]
      · rw [if_neg hopen]
        exact ih
    · have hrow : endRow mid pc now row = row := by simp [endRow, hid]
      rw [hrow]
      by_cases hopen : (row.room_id == rid && row.ended_at == none) = true
      · rw [if_pos hopen, if_pos hopen]
        simp only [List.map_cons, List.filter_cons]
        simp [hid, ih]
      · rw [if_neg hopen, if_neg hopen]
        exact ih

/-- `generateMeetingSummary` never touches the meetings table or the
AUTOINCREMENT counter. -/
theorem generateMeetingSummary_meetings (gw : GeminiOutcome) (now : Nat) (db : Db) (mid : Nat) :
    (generateMeetingSummary gw now db mid).1.meetings = db.meetings ∧
    (generateMeetingSummary gw now db mid).1.nextMeetingId = db.nextMeetingId := by
  unfold generateMeetingSummary
  by_cases hlen : (getTranscriptions db mid).length = 0
  · simp [hlen]
  · rcases gw with _ | cands
    · simp [hlen]
    · rcases cands with _ | ⟨_ | ⟨c, rest⟩⟩
      · simp [hlen]
      · simp [hlen]
      · by_cases ht : truthyStr (objPartsHeadText c.content) = true
        · simp [hlen, ht, saveSummary]
        · simp only [Bool.not_eq_true] at ht
          simp [hlen, ht]

/-- Well-formedness of the transcription state, preserved by every
operation of the Transcription Session Manager: every open meeting row is
owned by a registered room that is actively recording into exactly that
row; meeting row ids are unique and below the AUTOINCREMENT counter; room
ids are unique. -/
def TInv (st : TState) : Prop :=
  (∀ rid : String, ∀ m ∈ openMeetings st.db rid,
    ∃ room ∈ st.rooms, room.id = rid ∧ room.transcriptionActive = true ∧
      room.meetingId = some m) ∧
  (∀ row ∈ st.db.meetings, row.id < st.db.nextMeetingId) ∧
  (st.db.meetings.map (·.id)).Nodup ∧
  (st.rooms.map (·.id)).Nodup

/-- The transcription state at process start satisfies the invariant. -/
theorem TInv_init : TInv ⟨[], ⟨[], [], [], 1⟩⟩ := by
  refine ⟨?_, ?_, ?_, ?_⟩ <;> simp [openMeetings]

/-- Two rooms of a Nodup-id map with the same id are the same room. -/
theorem rooms_unique (rs : List Room) (hnd : (rs.map (·.id)).Nodup)
    (r₁ r₂ : Room) (h₁ : r₁ ∈ rs) (h₂ : r₂ ∈ rs) (hid : r₁.id = r₂.id) : r₁ = r₂ :=
  List.inj_on_of_nodup_map hnd h₁ h₂ hid

/-- One Transcription Session Manager operation, as invoked by the
signaling and audio handlers: start, stop (with the participant count the
stop handler measured), room-empty, or one inbound audio chunk. -/
inductive TOp where
  | start (roomId : String) (now : Nat)
  | stop (roomId : String) (participantCount : Nat) (gw : GeminiOutcome) (now : Nat)
  | roomEmpty (roomId : String) (gw : GeminiOutcome) (now : Nat)
  | audioChunk (roomId : String) (chunk : List Nat) (gw : GeminiOutcome) (now : Nat)
deriving Repr, DecidableEq

/-- Apply one transcription operation to the state. -/
def applyTOp (st : TState) : TOp → TState
  | .start roomId now => (startTranscription st roomId now).1
  | .stop roomId pc gw now => (stopTranscription gw st roomId pc now).1
  | .roomEmpty roomId gw now => handleRoomEmpty gw st roomId now
  | .audioChunk roomId chunk gw now => geminiOnMessage gw now st roomId chunk

/-- Fold a sequence of transcription operations. -/
def runTOps (st : TState) (ops : List TOp) : TState :=
  ops.foldl applyTOp st

/-- The transcription state at process start. -/
def initTState : TState :=
  ⟨[], ⟨[], [], [], 1⟩⟩

/-- A member with the sought id makes the `any` probe of `roomsSet` true. -/
theorem rooms_any_of_mem (rs : List Room) (room : Room) (x : Room)
    (hm : room ∈ rs) (hid : room.id = x.id) :
    rs.any (fun q => q.id == x.id) = true :=
  List.any_eq_true.mpr ⟨room, hm, by simp [hid]⟩

/-- A failed lookup makes the `any` probe false. -/
theorem rooms_any_of_none (rs : List Room) (rid : String)
    (h : roomsGet rs rid = none) (x : Room) (hid : x.id = rid) :
    rs.any (fun q => q.id == x.id) = false := by
  rw [Bool.eq_false_iff]
  intro hc
  obtain ⟨q, hq, hqe⟩ := List.any_eq_true.mp hc
  exact roomsGet_eq_none rs rid h q hq (by rw [← hid]; exact beq_iff_eq.mp hqe)

/-- `utteranceSave` only appends to the transcriptions table. -/
theorem utteranceSave_meetings (room : Room) (db : Db) (t : String) (now : Nat) :
    (utteranceSave room db t now).meetings = db.meetings ∧
    (utteranceSave room db t now).nextMeetingId = db.nextMeetingId := by
  unfold utteranceSave
  cases room.meetingId with
  | none => exact ⟨rfl, rfl⟩
  | some mid => split_ifs <;> simp [saveTranscription]

/-- `openMeetings` only reads the meetings table. -/
theorem openMeetings_congr (db₁ db₂ : Db) (rid : String)
    (h : db₁.meetings = db₂.meetings) : openMeetings db₁ rid = openMeetings db₂ rid := by
  unfold openMeetings
  rw [h]

/-- The segmenter step never changes a room's identity, activity flag, or
meeting id. -/
theorem segmentStep_fields (now : Nat) (room : Room) (c : List Nat) :
    (segmentStep now room c).1.id = room.id ∧
    (segmentStep now room c).1.transcriptionActive = room.transcriptionActive ∧
    (segmentStep now room c).1.meetingId = room.meetingId := by
  unfold segmentStep
  split_ifs <;> simp <;> split_ifs <;> simp

/-- Replacing a registered room by a room with the same id, activity flag,
and meeting id — leaving the meetings table alone — preserves `TInv`. -/
theorem TInv_replace_same (st : TState) (h : TInv st) (room newR : Room) (db' : Db)
    (hmem : room ∈ st.rooms)
    (hid : newR.id = room.id)
    (hact : newR.transcriptionActive = room.transcriptionActive)
    (hmid : newR.meetingId = room.meetingId)
    (hmeet : db'.meetings = st.db.meetings)
    (hnext : db'.nextMeetingId = st.db.nextMeetingId) :
    TInv ⟨roomsSet st.rooms newR, db'⟩ := by
  obtain ⟨hopen, hbound, hmids, hrids⟩ := h
  have hp : st.rooms.any (fun q => q.id == newR.id) = true :=
    rooms_any_of_mem _ room newR hmem hid.symm
  refine ⟨?_, ?_, ?_, ?_⟩
  · intro rid m hm
    rw [openMeetings_congr db' st.db rid hmeet] at hm
    obtain ⟨room', hr', hid', hact', hmid'⟩ := hopen rid m hm
    by_cases hsame : room'.id = room.id
    · have : room' = room := rooms_unique st.rooms hrids room' room hr' hmem hsame
      subst this
      refine ⟨newR, ?_, ?_, ?_, ?_⟩
      · exact (mem_roomsSet_present st.rooms newR newR hp).mpr (Or.inl rfl)
      · rw [hid, hid']
      · rw [hact, hact']
      · rw [hmid, hmid']
    · refine ⟨room', ?_, hid', hact', hmid'⟩
      exact (mem_roomsSet_present st.rooms newR room' hp).mpr
        (Or.inr ⟨hr', by rw [hid]; exact hsame⟩)
  · intro row hrow
    rw [hmeet] at hrow
    rw [hnext]
    exact hbound row hrow
  · rw [hmeet]
    exact hmids
  · rw [roomsSet_ids_present st.rooms newR hp]
    exact hrids

/-- `startTranscription` preserves the session invariant. -/
theorem TInv_start (st : TState) (h : TInv st) (roomId : String) (now : Nat) :
    TInv (startTranscription st roomId now).1 := by
  obtain ⟨hopen, hbound, hmids, hrids⟩ := h
  cases hfound : roomsGet st.rooms roomId with
  | some room =>
    obtain ⟨hmem, hid⟩ := roomsGet_mem _ _ _ hfound
    by_cases hact : room.transcriptionActive = false
    · simp only [startTranscription, hfound, hact, if_true]
      have hp : st.rooms.any (fun q => q.id ==
          ({ room with
              transcriptionActive := true
              meetingId := some (createMeeting st.db roomId now).2
              audioBuffer := []
              lastProcessedTime := now
              lastSpeechTime := 0
              hasSpeech := false } : Room).id) = true :=
        rooms_any_of_mem _ room _ hmem rfl
      refine ⟨?_, ?_, ?_, ?_⟩
      · intro rid m hm
        rw [openMeetings_createMeeting] at hm
        rcases List.mem_append.mp hm with hold | hnew
        · obtain ⟨room', hr', hid', hact', hmid'⟩ := hopen rid m hold
          by_cases hsame : room'.id = room.id
          · have : room' = room := rooms_unique st.rooms hrids room' room hr' hmem hsame
            subst this
            rw [hact] at hact'
            exact absurd hact' (by simp)
          · refine ⟨room', ?_, hid', hact', hmid'⟩
            exact (mem_roomsSet_present st.rooms _ room' hp).mpr (Or.inr ⟨hr', hsame⟩)
        · by_cases hrid : roomId = rid
          · rw [if_pos hrid] at hnew
            rw [List.mem_singleton] at hnew
            subst hnew
            refine ⟨_, (mem_roomsSet_present st.rooms _ _ hp).mpr (Or.inl rfl), ?_, rfl, rfl⟩
            rw [← hrid]
            exact hid
          · rw [if_neg hrid] at hnew
            exact absurd hnew (List.not_mem_nil m)
      · dsimp only
        simp only [createMeeting]
        intro row hrow
        rcases List.mem_append.mp hrow with hold | hnew
        · exact Nat.lt_succ_of_lt (hbound row hold)
        · rw [List.mem_singleton] at hnew
          subst hnew
          exact Nat.lt_succ_self _
      · dsimp only
        simp only [createMeeting]
        rw [List.map_append]
        rw [List.nodup_append]
        refine ⟨hmids, List.nodup_singleton _, ?_⟩
        intro x hx hx'
        simp only [List.map_cons, List.map_nil, List.mem_singleton] at hx'
        subst hx'
        obtain ⟨row, hrow, hrid⟩ := List.mem_map.mp hx
        exact absurd hrid (Nat.ne_of_lt (hbound row hrow))
      · dsimp only
        rw [roomsSet_ids_present st.rooms _ hp]
        exact hrids
    · simp only [startTranscription, hfound, if_neg hact]
      exact ⟨hopen, hbound, hmids, hrids⟩
  | none =>
    have habs : st.rooms.any (fun q => q.id ==
        (⟨roomId, none, false, [], now, 0, false⟩ : Room).id) = false :=
      rooms_any_of_none st.rooms roomId hfound _ rfl
    simp only [startTranscription, hfound]
    rw [if_pos trivial]
    dsimp only
    have hmem₁ : (⟨roomId, none, false, [], now, 0, false⟩ : Room) ∈
        roomsSet st.rooms ⟨roomId, none, false, [], now, 0, false⟩ :=
      (mem_roomsSet_absent _ _ _ habs).mpr (Or.inr rfl)
    have hp : (roomsSet st.rooms ⟨roomId, none, false, [], now, 0, false⟩).any
        (fun q => q.id == (({ (⟨roomId, none, false, [], now, 0, false⟩ : Room) with
            transcriptionActive := true
            meetingId := some (createMeeting st.db roomId now).2
            audioBuffer := []
            lastProcessedTime := now
            lastSpeechTime := 0
            hasSpeech := false } : Room)).id) = true :=
      rooms_any_of_mem _ _ _ hmem₁ rfl
    refine ⟨?_, ?_, ?_, ?_⟩
    · intro rid m hm
      rw [openMeetings_createMeeting] at hm
      rcases List.mem_append.mp hm with hold | hnew
      · obtain ⟨room', hr', hid', hact', hmid'⟩ := hopen rid m hold
        by_cases hsame : room'.id = roomId
        · exact absurd hsame (roomsGet_eq_none st.rooms roomId hfound room' hr')
        · refine ⟨room', ?_, hid', hact', hmid'⟩
          refine (mem_roomsSet_present _ _ room' hp).mpr (Or.inr ⟨?_, hsame⟩)
          exact (mem_roomsSet_absent _ _ _ habs).mpr (Or.inl hr')
      · by_cases hrid : roomId = rid
        · rw [if_pos hrid] at hnew
          rw [List.mem_singleton] at hnew
          subst hnew
          exact ⟨_, (mem_roomsSet_present _ _ _ hp).mpr (Or.inl rfl), hrid, rfl, rfl⟩
        · rw [if_neg hrid] at hnew
          exact absurd hnew (List.not_mem_nil m)
    · dsimp only
      simp only [createMeeting]
      intro row hrow
      rcases List.mem_append.mp hrow with hold | hnew
      · exact Nat.lt_succ_of_lt (hbound row hold)
      · rw [List.mem_singleton] at hnew
        subst hnew
        exact Nat.lt_succ_self _
    · dsimp only
      simp only [createMeeting]
      rw [List.map_append, List.nodup_append]
      refine ⟨hmids, List.nodup_singleton _, ?_⟩
      intro x hx hx'
      simp only [List.map_cons, List.map_nil, List.mem_singleton] at hx'
      subst hx'
      obtain ⟨row, hrow, hrid⟩ := List.mem_map.mp hx
      exact absurd hrid (Nat.ne_of_lt (hbound row hrow))
    · dsimp only
      rw [roomsSet_ids_present _ _ hp,
        roomsSet_ids_absent st.rooms _ habs, List.nodup_append]
      refine ⟨hrids, List.nodup_singleton _, ?_⟩
      intro x hx hx'
      rw [List.mem_singleton] at hx'
      subst hx'
      obtain ⟨room', hr', hrid'⟩ := List.mem_map.mp hx
      exact absurd hrid' (roomsGet_eq_none st.rooms _ hfound room' hr')

/-- `endRow` never changes a row's id. -/
theorem endRow_id (mid pc now : Nat) (r : MeetingRow) : (endRow mid pc now r).id = r.id := by
  unfold endRow
  split <;> rfl

/-- `endMeeting` keeps the list of meeting ids (and the counter). -/
theorem endMeeting_ids (db : Db) (mid pc now : Nat) :
    (endMeeting db mid pc now).meetings.map (·.id) = db.meetings.map (·.id) ∧
    (endMeeting db mid pc now).nextMeetingId = db.nextMeetingId := by
  rw [endMeeting_eq_map]
  refine ⟨?_, rfl⟩
  dsimp only
  rw [List.map_map]
  exact List.map_congr_left fun r _ => endRow_id mid pc now r

/-- `stopTranscription` preserves the session invariant. -/
theorem TInv_stop (st : TState) (h : TInv st) (gw : GeminiOutcome) (roomId : String)
    (pc now : Nat) : TInv (stopTranscription gw st roomId pc now).1 := by
  obtain ⟨hopen, hbound, hmids, hrids⟩ := h
  cases hfound : roomsGet st.rooms roomId with
  | none =>
    simp only [stopTranscription, hfound]
    exact ⟨hopen, hbound, hmids, hrids⟩
  | some room =>
    obtain ⟨hmem, hid⟩ := roomsGet_mem _ _ _ hfound
    cases hmid : room.meetingId with
    | none =>
      simp only [stopTranscription, hfound, hmid]
      exact ⟨hopen, hbound, hmids, hrids⟩
    | some mid =>
      by_cases hact : room.transcriptionActive = true
      · simp only [stopTranscription, hfound, hmid, hact, if_true]
        have hgms := generateMeetingSummary_meetings gw now
          (endMeeting st.db mid pc now) mid
        have hp : st.rooms.any (fun q => q.id ==
            ({ room with transcriptionActive := false, meetingId := some mid } : Room).id) =
            true :=
          rooms_any_of_mem _ room _ hmem rfl
        refine ⟨?_, ?_, ?_, ?_⟩
        · intro rid m hm
          rw [openMeetings_congr _ _ rid hgms.1,
            openMeetings_endMeeting] at hm
          rw [List.mem_filter] at hm
          obtain ⟨hmold, hmne⟩ := hm
          obtain ⟨room', hr', hid', hact', hmid'⟩ := hopen rid m hmold
          by_cases hsame : room'.id = room.id
          · have : room' = room := rooms_unique st.rooms hrids room' room hr' hmem hsame
            subst this
            rw [hmid] at hmid'
            have : m = mid := by
              exact (Option.some_inj.mp hmid'.symm)
            subst this
            simp at hmne
          · refine ⟨room', ?_, hid', hact', hmid'⟩
            exact (mem_roomsSet_present st.rooms _ room' hp).mpr (Or.inr ⟨hr', hsame⟩)
        · intro row hrow
          rw [hgms.1] at hrow
          rw [hgms.2, (endMeeting_ids st.db mid pc now).2]
          have : row.id ∈ (endMeeting st.db mid pc now).meetings.map (·.id) :=
            List.mem_map.mpr ⟨row, hrow, rfl⟩
          rw [(endMeeting_ids st.db mid pc now).1] at this
          obtain ⟨row', hrow', hrid'⟩ := List.mem_map.mp this
          rw [← hrid']
          exact hbound row' hrow'
        · rw [hgms.1, (endMeeting_ids st.db mid pc now).1]
          exact hmids
        · rw [roomsSet_ids_present st.rooms _ hp]
          exact hrids
      · simp only [stopTranscription, hfound, hmid, hact, if_false]
        exact ⟨hopen, hbound, hmids, hrids⟩

/-- `handleRoomEmpty` is `stopTranscription` with the participant-count
sentinel 1, as far as the resulting state is concerned. -/
theorem handleRoomEmpty_eq_stop (gw : GeminiOutcome) (st : TState) (roomId : String)
    (now : Nat) :
    handleRoomEmpty gw st roomId now = (stopTranscription gw st roomId 1 now).1 := by
  unfold handleRoomEmpty stopTranscription
  cases hfound : roomsGet st.rooms roomId with
  | none => rfl
  | some room =>
    cases hmid : room.meetingId with
    | none => simp [hmid]
    | some mid => by_cases hact : room.transcriptionActive <;> simp [hmid, hact]

/-- `geminiOnMessage` preserves the session invariant. -/
theorem TInv_gemini (st : TState) (h : TInv st) (gw : GeminiOutcome) (now : Nat)
    (roomId : String) (chunk : List Nat) :
    TInv (geminiOnMessage gw now st roomId chunk) := by
  cases hfound : roomsGet st.rooms roomId with
  | none =>
    simp only [geminiOnMessage, hfound]
    exact h
  | some room =>
    obtain ⟨hmem, hid⟩ := roomsGet_mem _ _ _ hfound
    obtain ⟨hf1, hf2, hf3⟩ := segmentStep_fields now room chunk
    simp only [geminiOnMessage, hfound]
    cases hstep : (segmentStep now room chunk).2 with
    | none =>
      exact TInv_replace_same st h room _ st.db hmem hf1 hf2 hf3 rfl rfl
    | some combined =>
      have hus := utteranceSave_meetings (segmentStep now room chunk).1 st.db
        (transcribeAudioWithGemini gw) now
      exact TInv_replace_same st h room _ _ hmem hf1 hf2 hf3 hus.1 hus.2

/-- Every transcription operation preserves the session invariant. -/
theorem TInv_applyTOp (st : TState) (h : TInv st) (op : TOp) : TInv (applyTOp st op) := by
  cases op with
  | start roomId now => exact TInv_start st h roomId now
  | stop roomId pc gw now => exact TInv_stop st h gw roomId pc now
  | roomEmpty roomId gw now =>
    show TInv (handleRoomEmpty gw st roomId now)
    rw [handleRoomEmpty_eq_stop]
    exact TInv_stop st h gw roomId 1 now
  | audioChunk roomId chunk gw now => exact TInv_gemini st h gw now roomId chunk

/-- The invariant holds along every run from an invariant state. -/
theorem TInv_runTOps (ops : List TOp) (st : TState) (h : TInv st) : TInv (runTOps st ops) := by
  induction ops generalizing st with
  | nil => exact h
  | cons op rest ih => exact ih (applyTOp st op) (TInv_applyTOp st h op)

/-- Under the invariant, every room has at most one open meeting row. -/
theorem TInv_openMeetings_le_one (st : TState) (h : TInv st) (rid : String) :
    (openMeetings st.db rid).length ≤ 1 := by
  obtain ⟨hopen, _, hmids, hrids⟩ := h
  have hnd : (openMeetings st.db rid).Nodup := by
    unfold openMeetings
    have hsub : ((st.db.meetings.filter fun r => r.room_id == rid && r.ended_at == none).map
        (·.id)).Sublist (st.db.meetings.map (·.id)) :=
      (List.filter_sublist _).map _
    exact hmids.sublist hsub
  match hl : openMeetings st.db rid with
  | [] => simp
  | [m] => simp
  | m₁ :: m₂ :: rest =>
    exfalso
    have hm₁ : m₁ ∈ openMeetings st.db rid := by rw [hl]; exact List.mem_cons_self _ _
    have hm₂ : m₂ ∈ openMeetings st.db rid := by rw [hl]; simp
    obtain ⟨r₁, hr₁, hid₁, hact₁, hmid₁⟩ := hopen rid m₁ hm₁
    obtain ⟨r₂, hr₂, hid₂, hact₂, hmid₂⟩ := hopen rid m₂ hm₂
    have hrr : r₁ = r₂ := rooms_unique st.rooms hrids r₁ r₂ hr₁ hr₂ (by rw [hid₁, hid₂])
    subst hrr
    rw [hmid₁] at hmid₂
    have hmm : m₁ = m₂ := Option.some_inj.mp hmid₂
    rw [hl] at hnd
    rw [List.nodup_cons] at hnd
    exact hnd.1 (by rw [hmm]; exact List.mem_cons_self _ _)

/-- C5: calling start on a room whose session is already active returns
null and leaves the whole state — rooms map and database — unchanged, so
no new meeting row is created; moreover, along every run of session
operations from process start, each room has at most one open meeting row
(at most one active recording session) at any time. -/
theorem C5_start_on_active_noop (st : TState) (roomId : String) (now : Nat)
    (room : Room) (hfound : roomsGet st.rooms roomId = some room)
    (hact : room.transcriptionActive = true) :
    startTranscription st roomId now = (st, none) ∧
    (∀ ops : List TOp, ∀ rid : String,
      (openMeetings (runTOps initTState ops).db rid).length ≤ 1) := by
  constructor
  · simp only [startTranscription, hfound]
    rw [if_neg (by rw [hact]; simp)]
  · intro ops rid
    exact TInv_openMeetings_le_one _ (TInv_runTOps ops initTState TInv_init) rid

/-- Witness for C5 at a concrete one-room active state. -/
theorem C5_witness :
    startTranscription ⟨[demoActiveRoom], ⟨[⟨1, "default", 0, none, 0, none⟩], [], [], 2⟩⟩
        "default" 5 =
      (⟨[demoActiveRoom], ⟨[⟨1, "default", 0, none, 0, none⟩], [], [], 2⟩⟩, none) :=
  (C5_start_on_active_noop _ "default" 5 demoActiveRoom (by decide) (by decide)).1

/-- A meeting with no matching transcription rows fetches an empty
transcript. -/
theorem getTranscriptions_nil (db : Db) (mid : Nat)
    (h : db.transcriptions.filter (fun r => r.meeting_id == mid) = []) :
    getTranscriptions db mid = [] := by
  unfold getTranscriptions
  rw [h]
  rfl

/-- C6: stopping a room whose active session has zero persisted transcript
entries returns `stopped` with an empty summary, never contacts the
summarization gateway (third component `false`), and still finalizes the
meeting row with the end timestamp, participant count, and duration. -/
theorem C6_stop_zero_entries (gw : GeminiOutcome) (st : TState) (roomId : String)
    (pc now : Nat) (room : Room) (mid : Nat)
    (hfound : roomsGet st.rooms roomId = some room)
    (hact : room.transcriptionActive = true)
    (hmid : room.meetingId = some mid)
    (hempty : st.db.transcriptions.filter (fun r => r.meeting_id == mid) = []) :
    (stopTranscription gw st roomId pc now).2.1 = ⟨true, some ""⟩ ∧
    (stopTranscription gw st roomId pc now).2.2 = false ∧
    ∀ row ∈ st.db.meetings, row.id = mid →
      ({ row with ended_at := some now, participant_count := pc, duration_seconds := some ((now - row.started_at) / 1000) } : MeetingRow) ∈
        (stopTranscription gw st roomId pc now).1.db.meetings := by
  have htr : getTranscriptions (endMeeting st.db mid pc now) mid = [] :=
    getTranscriptions_nil _ _ hempty
  have hgms : generateMeetingSummary gw now (endMeeting st.db mid pc now) mid =
      (endMeeting st.db mid pc now, "", false) := by
    unfold generateMeetingSummary
    rw [htr]
    rfl
  simp only [stopTranscription, hfound, hmid, hact, if_true, hgms]
  refine ⟨by trivial, by trivial, ?_⟩
  intro row hrow hrid
  rw [endMeeting_eq_map]
  refine List.mem_map.mpr ⟨row, hrow, ?_⟩
  simp [endRow, hrid]

/-- Witness for C6 at a concrete one-room state with an empty
transcriptions table. -/
theorem C6_witness :
    (stopTranscription GeminiOutcome.networkError
      ⟨[demoActiveRoom], ⟨[⟨1, "default", 0, none, 0, none⟩], [], [], 2⟩⟩
      "default" 2 1000).2.1 = ⟨true, some ""⟩ :=
  (C6_stop_zero_entries GeminiOutcome.networkError
    ⟨[demoActiveRoom], ⟨[⟨1, "default", 0, none, 0, none⟩], [], [], 2⟩⟩
    "default" 2 1000 demoActiveRoom 1 (by decide) (by decide) (by decide) (by decide)).1

/-- C7: the Gemini gateway wrappers never propagate a failure — a network
or JSON error yields `""` from both the transcriber and the summarizer,
as does any decoded response matching none of the probed shapes (no
candidates, empty candidates, or a first candidate failing the text
probes each function tries) — and `stopTranscription` finalizes the
meeting row under every gateway outcome, in particular whenever
summarization fails. -/
theorem C7_gateway_failures_contained :
    (transcribeAudioWithGemini .networkError = "" ∧
      transcribeAudioWithGemini (.response none) = "" ∧
      transcribeAudioWithGemini (.response (some [])) = "" ∧
      ∀ c : GCandidate, ∀ rest : List GCandidate,
        truthyStr (objPartsHeadText c.content) = false →
        truthyStr (arrHeadText c.content) = false →
        truthyStr c.text = false →
        transcribeAudioWithGemini (.response (some (c :: rest))) = "") ∧
    ((∀ now : Nat, ∀ db : Db, ∀ mid : Nat,
        (generateMeetingSummary .networkError now db mid).2.1 = "" ∧
        (generateMeetingSummary (.response none) now db mid).2.1 = "" ∧
        (generateMeetingSummary (.response (some [])) now db mid).2.1 = "") ∧
      (∀ c : GCandidate, ∀ rest : List GCandidate, ∀ now : Nat, ∀ db : Db, ∀ mid : Nat,
        truthyStr (objPartsHeadText c.content) = false →
        (generateMeetingSummary (.response (some (c :: rest))) now db mid).2.1 = "")) ∧
    (∀ gw : GeminiOutcome, ∀ st : TState, ∀ roomId : String, ∀ pc now : Nat,
      ∀ room : Room, ∀ mid : Nat,
      roomsGet st.rooms roomId = some room →
      room.transcriptionActive = true →
      room.meetingId = some mid →
      (stopTranscription gw st roomId pc now).2.1.stopped = true ∧
      ∀ row ∈ st.db.meetings, row.id = mid →
        ({ row with ended_at := some now, participant_count := pc, duration_seconds := some ((now - row.started_at) / 1000) } : MeetingRow) ∈
          (stopTranscription gw st roomId pc now).1.db.meetings) := by
  refine ⟨⟨rfl, rfl, rfl, ?_⟩, ⟨?_, ?_⟩, ?_⟩
  · intro c rest h1 h2 h3
    simp [transcribeAudioWithGemini, h1, h2, h3]
  · intro now db mid
    refine ⟨?_, ?_, ?_⟩ <;>
      · unfold generateMeetingSummary
        by_cases h : (getTranscriptions db mid).length = 0 <;> simp [h]
  · intro c rest now db mid ht
    unfold generateMeetingSummary
    by_cases h : (getTranscriptions db mid).length = 0 <;> simp [h, ht]
  · intro gw st roomId pc now room mid hfound hact hmid
    have hgms := generateMeetingSummary_meetings gw now
      (endMeeting st.db mid pc now) mid
    simp only [stopTranscription, hfound, hmid, hact, if_true]
    constructor
    · trivial
    · intro row hrow hrid
      rw [hgms.1, endMeeting_eq_map]
      refine List.mem_map.mpr ⟨row, hrow, ?_⟩
      simp [endRow, hrid]

/-- Witness for C7 at a concrete unmatched response shape — fed to the
transcriber, the summarizer (over a non-empty transcript), and a stop on
a concrete active room. -/
theorem C7_witness :
    transcribeAudioWithGemini (.response (some [⟨some (.obj 2 none), some ""⟩])) = "" ∧
    (generateMeetingSummary (.response (some [⟨some (.obj 2 none), some ""⟩])) 9
      ⟨[], [⟨1, "a transcript line", 5⟩], [], 2⟩ 1).2.1 = "" ∧
    (stopTranscription (.response (some [⟨some (.obj 2 none), some ""⟩]))
      ⟨[demoActiveRoom], ⟨[⟨1, "default", 0, none, 0, none⟩], [], [], 2⟩⟩
      "default" 3 2000).2.1.stopped = true :=
  ⟨C7_gateway_failures_contained.1.2.2.2 ⟨some (.obj 2 none), some ""⟩ [] rfl rfl rfl,
    C7_gateway_failures_contained.2.1.2 ⟨some (.obj 2 none), some ""⟩ [] 9
      ⟨[], [⟨1, "a transcript line", 5⟩], [], 2⟩ 1 rfl,
    (C7_gateway_failures_contained.2.2 (.response (some [⟨some (.obj 2 none), some ""⟩]))
      ⟨[demoActiveRoom], ⟨[⟨1, "default", 0, none, 0, none⟩], [], [], 2⟩⟩
      "default" 3 2000 demoActiveRoom 1 (by decide) (by decide) (by decide)).1⟩

/-- Inserting a row whose key is not above any element keeps it in front. -/
theorem insertRow_front (r : TranscriptionRow) (l : List TranscriptionRow)
    (h : ∀ y ∈ l, ¬(y.created_at < r.created_at)) : insertRow r l = r :: l := by
  cases l with
  | nil => rfl
  | cons x xs =>
    unfold insertRow
    rw [if_neg (h x (List.mem_cons_self _ _))]

/-- The stable sort leaves a list already ordered by `created_at`
untouched (including equal keys, which keep their rowid order). -/
theorem sortRows_sorted (l : List TranscriptionRow)
    (h : l.Pairwise fun a b => a.created_at ≤ b.created_at) : sortRows l = l := by
  induction l with
  | nil => rfl
  | cons x xs ih =>
    rw [List.pairwise_cons] at h
    show insertRow x (sortRows xs) = x :: xs
    rw [ih h.2]
    exact insertRow_front x xs fun y hy => Nat.not_lt.mpr (h.1 y hy)

/-- Serialized utterance finalizations against one session: fold
`utteranceSave` over a list of (text, timestamp) pairs. -/
def appendEntries (room : Room) (db : Db) (entries : List (String × Nat)) : Db :=
  entries.foldl (fun d e => utteranceSave room d e.1 e.2) db

/-- With a meeting id present and every text passing the non-empty
checks, the fold appends exactly one row per entry, in order. -/
theorem appendEntries_transcriptions (room : Room) (mid : Nat)
    (hmid : room.meetingId = some mid) (entries : List (String × Nat))
    (hne : ∀ e ∈ entries, e.1 ≠ "" ∧ 0 < (jsTrim e.1).length) :
    ∀ db : Db, (appendEntries room db entries).transcriptions =
      db.transcriptions ++ entries.map fun e => ⟨mid, e.1, e.2⟩ := by
  induction entries with
  | nil => intro db; simp [appendEntries]
  | cons e es ih =>
    intro db
    have hsave : utteranceSave room db e.1 e.2 = saveTranscription db mid e.1 e.2 := by
      unfold utteranceSave
      rw [hmid]
      exact if_pos (hne e (List.mem_cons_self _ _))
    show (appendEntries room (utteranceSave room db e.1 e.2) es).transcriptions = _
    rw [hsave, ih fun x hx => hne x (List.mem_cons_of_mem e hx)]
    simp [saveTranscription]

/-- C9: entries appended one at a time via the utterance-finalization path
to an active session with no prior rows are returned by the chronological
transcript fetch exactly in append order, provided the append timestamps
are non-decreasing (serialized calls); equal timestamps keep rowid
order. -/
theorem C9_transcript_round_trip (room : Room) (db : Db) (mid : Nat)
    (entries : List (String × Nat))
    (hmid : room.meetingId = some mid)
    (hne : ∀ e ∈ entries, e.1 ≠ "" ∧ 0 < (jsTrim e.1).length)
    (hempty : db.transcriptions.filter (fun r => r.meeting_id == mid) = [])
    (hmono : entries.Pairwise fun a b => a.2 ≤ b.2) :
    getTranscriptions (appendEntries room db entries) mid = entries.map (·.1) := by
  unfold getTranscriptions
  rw [appendEntries_transcriptions room mid hmid entries hne db]
  rw [List.filter_append, hempty, List.nil_append]
  have hall : (entries.map fun e => (⟨mid, e.1, e.2⟩ : TranscriptionRow)).filter
      (fun r => r.meeting_id == mid) =
      entries.map fun e => (⟨mid, e.1, e.2⟩ : TranscriptionRow) := by
    apply List.filter_eq_self.mpr
    intro r hr
    obtain ⟨e, _, rfl⟩ := List.mem_map.mp hr
    simp
  rw [hall]
  rw [sortRows_sorted _ (List.Pairwise.map _ (fun a b h => h) hmono)]
  rw [List.map_map]
  rfl

/-- Witness for C9 at two concrete entries sharing a timestamp. -/
theorem C9_witness :
    getTranscriptions
      (appendEntries demoActiveRoom ⟨[⟨1, "default", 0, none, 0, none⟩], [], [], 2⟩
        [("hello", 10), ("world", 10)]) 1 = ["hello", "world"] :=
  C9_transcript_round_trip demoActiveRoom ⟨[⟨1, "default", 0, none, 0, none⟩], [], [], 2⟩ 1
    [("hello", 10), ("world", 10)] (by decide) (by decide) (by decide) (by decide)

/-- Replacing the (present) key puts the new room where `find?` sees it
first among entries with that id. -/
theorem find?_map_replace (rs : List Room) (room : Room)
    (hp : rs.any (fun q => q.id == room.id) = true) :
    (rs.map fun q => if q.id == room.id then room else q).find?
      (fun r => r.id == room.id) = some room := by
  induction rs with
  | nil => simp at hp
  | cons q qs ih =>
    by_cases hq : (q.id == room.id) = true
    · simp only [List.map_cons, if_pos hq]
      exact List.find?_cons_of_pos _ (by simp)
    · have hp' : qs.any (fun q => q.id == room.id) = true := by
        rcases List.any_eq_true.mp hp with ⟨x, hx, hxe⟩
        rcases List.mem_cons.mp hx with rfl | hx'
        · exact absurd hxe hq
        · exact List.any_eq_true.mpr ⟨x, hx', hxe⟩
      simp only [List.map_cons, if_neg hq]
      rw [List.find?_cons_of_neg _ (by simpa using hq)]
      exact ih hp'

/-- Appending an absent key puts the new room where `find?` reaches it. -/
theorem find?_append_self (rs : List Room) (room : Room)
    (hp : rs.any (fun q => q.id == room.id) = false) :
    (rs ++ [room]).find? (fun r => r.id == room.id) = some room := by
  induction rs with
  | nil => simp
  | cons q qs ih =>
    rw [List.any_cons, Bool.or_eq_false_iff] at hp
    rw [List.cons_append, List.find?_cons_of_neg _ (by simp [hp.1])]
    exact ih hp.2

/-- Looking up the id just stored returns the stored room. -/
theorem roomsGet_roomsSet_self (rs : List Room) (room : Room) :
    roomsGet (roomsSet rs room) room.id = some room := by
  unfold roomsGet roomsSet
  by_cases hp : rs.any (fun q => q.id == room.id) = true
  · rw [if_pos hp]
    exact find?_map_replace rs room hp
  · rw [Bool.not_eq_true] at hp
    rw [if_neg (by simp [hp])]
    exact find?_append_self rs room hp

/-- C10: when a signaling channel closes for a peer that never joined (it
is absent from the registry), the close handler falls back to the literal
room id "default"; if no registered peer belongs to room "default", it
invokes the room-empty handler there, which ends an active "default"
session: the room is flagged inactive and the meeting row is finalized
with the participant-count sentinel 1 — even though the closing peer was
never a member of any room. -/
theorem C10_close_unjoined_ends_default (gw : GeminiOutcome) (now : Nat)
    (st : ServerState) (peerId : String) (room : Room) (mid : Nat)
    (habsent : ∀ p ∈ st.peers, p.id ≠ peerId)
    (hnodefault : ∀ p ∈ st.peers, p.roomId ≠ some "default")
    (hroom : roomsGet st.ts.rooms "default" = some room)
    (hact : room.transcriptionActive = true)
    (hmid : room.meetingId = some mid) :
    (∃ room' : Room,
      roomsGet (handleWsClose gw now st peerId).1.ts.rooms "default" = some room' ∧
      room'.transcriptionActive = false) ∧
    ∀ row ∈ st.ts.db.meetings, row.id = mid →
      ({ row with ended_at := some now, participant_count := 1, duration_seconds := some ((now - row.started_at) / 1000) } : MeetingRow) ∈
        (handleWsClose gw now st peerId).1.ts.db.meetings := by
  have hfind : st.peers.find? (fun p => p.id == peerId) = none := by
    rw [List.find?_eq_none]
    intro p hp
    simp [habsent p hp]
  have hrem : ((st.peers.filter fun p => p.id != peerId).filter
      fun p => p.roomId == some "default") = [] := by
    rw [List.filter_eq_nil_iff]
    intro p hp
    have hp' : p ∈ st.peers := List.mem_of_mem_filter hp
    simp [hnodefault p hp']
  have hroomid : room.id = "default" := (roomsGet_mem _ _ _ hroom).2
  have hre : handleRoomEmpty gw st.ts "default" now =
      ⟨roomsSet st.ts.rooms { room with transcriptionActive := false },
        (generateMeetingSummary gw now (endMeeting st.ts.db mid 1 now) mid).1⟩ := by
    unfold handleRoomEmpty
    simp only [hroom, hmid, hact, if_true]
  have hclose : (handleWsClose gw now st peerId).1 =
      ⟨st.peers.filter fun p => p.id != peerId,
        handleRoomEmpty gw st.ts "default" now⟩ := by
    unfold handleWsClose
    rw [hfind]
    show (if ((st.peers.filter fun p => p.id != peerId).filter
        fun p => p.roomId == some "default").length = 0 then _ else _ :
        ServerState × List Send).1 = _
    rw [hrem]
    rfl
  rw [hclose, hre]
  constructor
  · refine ⟨{ room with transcriptionActive := false }, ?_, rfl⟩
    have := roomsGet_roomsSet_self st.ts.rooms { room with transcriptionActive := false }
    simpa [hroomid] using this
  · intro row hrow hrid
    have hgms := generateMeetingSummary_meetings gw now (endMeeting st.ts.db mid 1 now) mid
    show _ ∈ (generateMeetingSummary gw now (endMeeting st.ts.db mid 1 now) mid).1.meetings
    rw [hgms.1, endMeeting_eq_map]
    refine List.mem_map.mpr ⟨row, hrow, ?_⟩
    simp [endRow, hrid]

/-- Witness for C10: a registry holding one peer of another room, an
active "default" session, and a close for an unregistered peer id. -/
theorem C10_witness :
    ∃ room' : Room,
      roomsGet (handleWsClose GeminiOutcome.networkError 50
        ⟨[⟨"x", none, [], some "other"⟩],
          ⟨[demoActiveRoom], ⟨[⟨1, "default", 0, none, 0, none⟩], [], [], 2⟩⟩⟩
        "ghost").1.ts.rooms "default" = some room' ∧
      room'.transcriptionActive = false :=
  (C10_close_unjoined_ends_default GeminiOutcome.networkError 50
    ⟨[⟨"x", none, [], some "other"⟩],
      ⟨[demoActiveRoom], ⟨[⟨1, "default", 0, none, 0, none⟩], [], [], 2⟩⟩⟩
    "ghost" demoActiveRoom 1 (by decide) (by decide) (by decide) (by decide) (by decide)).1

/-- C1 (counterexample): with peer "a" registered in room "r1", a join of
"b" into a different room "r2" sends "b" an `existing-peers` snapshot
containing "a" — a member of r1, not of r2 (and the claim would have the
snapshot skipped entirely, r2 being empty) — and sends `peer-joined` to
"a", which is not a member of r2: the source builds both from the whole
registry with no room filter. -/
theorem C1_counterexample :
    handleWsMessage GeminiOutcome.networkError 0
      ⟨[⟨"a", some "sa", ["cam"], some "r1"⟩], ⟨[], ⟨[], [], [], 1⟩⟩⟩ "b"
      (InboundPayload.json (some "join") (some "r2") (some "sb") (some ["mic"])) =
    .ok (⟨[⟨"a", some "sa", ["cam"], some "r1"⟩, ⟨"b", some "sb", ["mic"], some "r2"⟩],
        ⟨[], ⟨[], [], [], 1⟩⟩⟩,
      [("b", OutMsg.existingPeers [⟨"a", some "sa", ["cam"]⟩]),
        ("a", OutMsg.peerJoined "b" (some "sb") (some ["mic"]))]) := by
  decide

/-- C1 (amended): on a join message the handler sends the joining
connection an `existing-peers` snapshot listing ALL currently registered
peers of every room — skipped exactly when the registry is empty — and
broadcasts `peer-joined` to ALL currently registered peers regardless of
room; only registered peers receive it, and the joining peer is
registered after the sends. -/
theorem C1_join_broadcast_global (gw : GeminiOutcome) (now : Nat) (st : ServerState)
    (peerId : String) (roomIdF sessionId : Option String) (tracks : Option (List String))
    (st' : ServerState) (sends : List Send)
    (h : handleWsMessage gw now st peerId (.json (some "join") roomIdF sessionId tracks) =
      .ok (st', sends)) :
    (∀ p ∈ st.peers, (p.id, OutMsg.peerJoined peerId sessionId tracks) ∈ sends) ∧
    (∀ s ∈ sends, ∀ pid : String, ∀ sid : Option String, ∀ tr : Option (List String),
      s.2 = OutMsg.peerJoined pid sid tr → s.1 ∈ peerIds st.peers) ∧
    (st.peers = [] → sends = []) ∧
    (st.peers ≠ [] →
      (peerId, OutMsg.existingPeers
        (st.peers.map fun p => ⟨p.id, p.sessionId, p.trackNames⟩)) ∈ sends) ∧
    st'.peers = peersSet st.peers
      ⟨peerId, sessionId, tracks.getD [], some (jsOrDefault roomIdF "default")⟩ := by
  have hred : handleWsMessage gw now st peerId
      (.json (some "join") roomIdF sessionId tracks) =
      .ok (⟨peersSet st.peers
            ⟨peerId, sessionId, tracks.getD [], some (jsOrDefault roomIdF "default")⟩, st.ts⟩,
        (if (st.peers.map fun p => PeerInfo.mk p.id p.sessionId p.trackNames).length > 0 then
          [(peerId, OutMsg.existingPeers
            (st.peers.map fun p => PeerInfo.mk p.id p.sessionId p.trackNames))]
         else []) ++
        st.peers.map fun p => (p.id, OutMsg.peerJoined peerId sessionId tracks)) := by
    simp [handleWsMessage]
  rw [hred] at h
  obtain ⟨h1, h2⟩ := Prod.mk.injEq .. ▸ Except.ok.injEq .. ▸ h
  subst h1
  refine ⟨?_, ?_, ?_, ?_, rfl⟩
  · intro p hp
    rw [← h2]
    exact List.mem_append_right _ (List.mem_map.mpr ⟨p, hp, rfl⟩)
  · intro s hs pid sid tr hmsg
    rw [← h2] at hs
    rcases List.mem_append.mp hs with hsnap | hjoin
    · by_cases hl : (st.peers.map fun p => PeerInfo.mk p.id p.sessionId p.trackNames).length > 0
      · rw [if_pos hl] at hsnap
        rw [List.mem_singleton] at hsnap
        subst hsnap
        simp at hmsg
      · rw [if_neg hl] at hsnap
        exact absurd hsnap (List.not_mem_nil s)
    · obtain ⟨p, hp, rfl⟩ := List.mem_map.mp hjoin
      exact List.mem_map.mpr ⟨p, hp, rfl⟩
  · intro hnil
    rw [← h2, hnil]
    rfl
  · intro hne
    rw [← h2]
    refine List.mem_append_left _ ?_
    rw [if_pos (by simpa [List.length_pos] using hne)]
    exact List.mem_singleton.mpr rfl

/-- Witness for C1's amended theorem: concrete two-room state where the
cross-room peer "a" receives the `peer-joined` broadcast. -/
theorem C1_witness :
    (("a" : String), OutMsg.peerJoined "b2" (some "sb") (some ["mic"])) ∈
      ([(("b2" : String), OutMsg.existingPeers [⟨"a", some "sa", ["cam"]⟩]),
        ("a", OutMsg.peerJoined "b2" (some "sb") (some ["mic"]))] : List Send) :=
  (C1_join_broadcast_global GeminiOutcome.networkError 7
      ⟨[⟨"a", some "sa", ["cam"], some "r1"⟩], ⟨[], ⟨[], [], [], 1⟩⟩⟩ "b2"
      (some "r2") (some "sb") (some ["mic"])
      ⟨[⟨"a", some "sa", ["cam"], some "r1"⟩, ⟨"b2", some "sb", ["mic"], some "r2"⟩],
        ⟨[], ⟨[], [], [], 1⟩⟩⟩
      [("b2", OutMsg.existingPeers [⟨"a", some "sa", ["cam"]⟩]),
        ("a", OutMsg.peerJoined "b2" (some "sb") (some ["mic"]))]
      (by decide)).1 ⟨"a", some "sa", ["cam"], some "r1"⟩ (by decide)

/-- C2 (counterexample): the claim fails on both kinds of bad input. A
payload `JSON.parse` rejects makes the `/ws` message handler raise — the
parse is not wrapped in try/catch — contradicting "drops the message
without raising an exception"; and a join message lacking every optional
field (no sessionId, no tracks, no roomId) is still processed, registering
the peer with defaults — contradicting "no peer, room, or session state
is modified". -/
theorem C2_counterexample :
    handleWsMessage GeminiOutcome.networkError 0 initState "p1" InboundPayload.malformed =
      .error () ∧
    handleWsMessage GeminiOutcome.networkError 0 initState "p1"
      (InboundPayload.json (some "join") none none none) =
      .ok (⟨[⟨"p1", none, [], some "default"⟩], initState.ts⟩, []) :=
  ⟨rfl, by decide⟩

/-- C2 (amended): a message that parses but has an unknown or missing
`type` is dropped silently — the handler returns with the state unchanged
and no sends; an unparsable payload instead raises out of the handler
(the exception fires before any state is touched, so no state is
modified); and a join message that lacks its fields is still processed
with defaults — the peer is registered with room id `"default"`, no
session id, and an empty track list, so state IS modified. -/
theorem C2_malformed_raises_unknown_dropped (gw : GeminiOutcome) (now : Nat)
    (st : ServerState) (peerId : String) :
    handleWsMessage gw now st peerId .malformed = .error () ∧
    (∀ t roomIdF sessionId tracks,
      t ≠ some "start-transcription" → t ≠ some "stop-transcription" → t ≠ some "join" →
      handleWsMessage gw now st peerId (.json t roomIdF sessionId tracks) =
        .ok (st, [])) ∧
    (handleWsMessage gw now st peerId (.json (some "join") none none none) =
      .ok (⟨peersSet st.peers ⟨peerId, none, [], some "default"⟩, st.ts⟩,
        (if (st.peers.map fun p => PeerInfo.mk p.id p.sessionId p.trackNames).length > 0 then
          [(peerId, OutMsg.existingPeers
            (st.peers.map fun p => PeerInfo.mk p.id p.sessionId p.trackNames))]
         else []) ++
        st.peers.map fun p => (p.id, OutMsg.peerJoined peerId none none)) ∧
      (peerId ∉ peerIds st.peers →
        (⟨peerId, none, [], some "default"⟩ : Peer) ∈
          (handleWsMessage gw now st peerId (.json (some "join") none none none)).toOption.elim
            [] (fun r => r.1.peers))) := by
  refine ⟨rfl, ?_, ?_, ?_⟩
  · intro t r s tr h1 h2 h3
    simp [handleWsMessage, h1, h2, h3]
  · simp [handleWsMessage, jsOrDefault]
  · intro hfresh
    have hp : st.peers.any (fun q => q.id == peerId) = false := by
      rw [Bool.eq_false_iff]
      intro hc
      obtain ⟨q, hq, hqe⟩ := List.any_eq_true.mp hc
      exact hfresh (List.mem_map.mpr ⟨q, hq, beq_iff_eq.mp hqe⟩)
    have hred : (handleWsMessage gw now st peerId
        (.json (some "join") none none none)).toOption.elim [] (fun r => r.1.peers) =
        peersSet st.peers ⟨peerId, none, [], some "default"⟩ := by
      simp [handleWsMessage, jsOrDefault, Except.toOption]
    rw [hred]
    unfold peersSet
    rw [if_neg (by simp [hp])]
    exact List.mem_append_right _ (List.mem_singleton.mpr rfl)

/-- Witness for C2's amended theorem: a concrete unknown message type is
dropped, and a concrete field-lacking join registers the defaulted peer. -/
theorem C2_witness :
    handleWsMessage GeminiOutcome.networkError 3 initState "p"
      (InboundPayload.json (some "ping") none none none) = .ok (initState, []) ∧
    (⟨"p", none, [], some "default"⟩ : Peer) ∈
      (handleWsMessage GeminiOutcome.networkError 3 initState "p"
        (InboundPayload.json (some "join") none none none)).toOption.elim
        [] (fun r => r.1.peers) :=
  ⟨(C2_malformed_raises_unknown_dropped GeminiOutcome.networkError 3 initState "p").2.1
      (some "ping") none none none (by decide) (by decide) (by decide),
    (C2_malformed_raises_unknown_dropped GeminiOutcome.networkError 3 initState "p").2.2.2
      (by decide)⟩

/-- Membership in the id list after a `peers.set`. -/
theorem mem_peerIds_peersSet (l : List Peer) (p : Peer) (id : String) :
    id ∈ peerIds (peersSet l p) ↔ id = p.id ∨ id ∈ peerIds l := by
  unfold peersSet peerIds
  by_cases hp : l.any (fun q => q.id == p.id) = true
  · rw [if_pos hp, List.map_map]
    constructor
    · intro hm
      obtain ⟨q, hq, hqe⟩ := List.mem_map.mp hm
      simp only [Function.comp_apply] at hqe
      by_cases hqi : (q.id == p.id) = true
      · rw [if_pos hqi] at hqe
        exact Or.inl hqe.symm
      · rw [if_neg hqi] at hqe
        exact Or.inr (List.mem_map.mpr ⟨q, hq, hqe⟩)
    · intro hm
      rcases hm with rfl | hm
      · obtain ⟨q, hq, hqe⟩ := List.any_eq_true.mp hp
        refine List.mem_map.mpr ⟨q, hq, ?_⟩
        simp only [Function.comp_apply, if_pos hqe]
      · obtain ⟨q, hq, rfl⟩ := List.mem_map.mp hm
        refine List.mem_map.mpr ⟨q, hq, ?_⟩
        simp only [Function.comp_apply]
        by_cases hqi : (q.id == p.id) = true
        · rw [if_pos hqi]
          exact (beq_iff_eq.mp hqi).symm
        · rw [if_neg hqi]
  · rw [if_neg hp, List.map_append]
    simp [or_comm]

/-- Updating a present key keeps the id list; inserting appends the id. -/
theorem peerIds_peersSet_present (l : List Peer) (p : Peer)
    (hp : l.any (fun q => q.id == p.id) = true) :
    peerIds (peersSet l p) = peerIds l := by
  unfold peersSet peerIds
  rw [if_pos hp, List.map_map]
  apply List.map_congr_left
  intro q _
  by_cases hqi : (q.id == p.id) = true
  · simp only [Function.comp_apply, if_pos hqi]
    exact (beq_iff_eq.mp hqi).symm
  · simp only [Function.comp_apply, if_neg hqi]

/-- `peers.set` preserves uniqueness of registered ids. -/
theorem nodup_peerIds_peersSet (l : List Peer) (p : Peer)
    (h : (peerIds l).Nodup) : (peerIds (peersSet l p)).Nodup := by
  by_cases hp : l.any (fun q => q.id == p.id) = true
  · rw [peerIds_peersSet_present l p hp]
    exact h
  · unfold peersSet peerIds
    rw [if_neg hp, List.map_append, List.nodup_append]
    refine ⟨h, List.nodup_singleton _, ?_⟩
    intro x hx hx'
    simp only [List.map_cons, List.map_nil, List.mem_singleton] at hx'
    subst hx'
    obtain ⟨q, hq, hqe⟩ := List.mem_map.mp hx
    exact hp (List.any_eq_true.mpr ⟨q, hq, by simp [hqe]⟩)

/-- Membership in the id list after a `peers.delete`. -/
theorem mem_peerIds_filter_ne (l : List Peer) (pid id : String) :
    id ∈ peerIds (l.filter fun q => q.id != pid) ↔ id ∈ peerIds l ∧ id ≠ pid := by
  unfold peerIds
  constructor
  · intro hm
    obtain ⟨q, hq, rfl⟩ := List.mem_map.mp hm
    rw [List.mem_filter] at hq
    refine ⟨List.mem_map.mpr ⟨q, hq.1, rfl⟩, ?_⟩
    simpa using hq.2
  · intro ⟨hm, hne⟩
    obtain ⟨q, hq, rfl⟩ := List.mem_map.mp hm
    exact List.mem_map.mpr ⟨q, List.mem_filter.mpr ⟨hq, by simpa using hne⟩, rfl⟩

/-- `peers.delete` preserves uniqueness of registered ids. -/
theorem nodup_peerIds_filter_ne (l : List Peer) (pid : String)
    (h : (peerIds l).Nodup) : (peerIds (l.filter fun q => q.id != pid)).Nodup :=
  h.sublist ((List.filter_sublist l).map _)

/-- What one event does to the peer registry: opens (and non-join
messages, and malformed payloads) leave it alone; a join message `set`s
the joining peer; a close filters the closing id out. -/
theorem stepEvent_peers (st : ServerState) (e : Event) :
    ((stepEvent st e).peers = st.peers ∧ joinPid e = none ∧ closePid e = none) ∨
    (∃ p : Peer, (stepEvent st e).peers = peersSet st.peers p ∧ joinPid e = some p.id ∧
      closePid e = none) ∨
    (∃ pid : String, (stepEvent st e).peers = st.peers.filter (fun q => q.id != pid) ∧
      closePid e = some pid ∧ joinPid e = none) := by
  cases e with
  | wsOpen pid => exact Or.inl ⟨rfl, rfl, rfl⟩
  | wsClose pid gw now =>
    refine Or.inr (Or.inr ⟨pid, ?_, rfl, rfl⟩)
    show (handleWsClose gw now st pid).1.peers = _
    unfold handleWsClose
    by_cases hz : ((st.peers.filter fun p => p.id != pid).filter
        fun p => p.roomId == some (jsOrDefault
          ((st.peers.find? fun p => p.id == pid).bind (·.roomId)) "default")).length = 0
    · rw [if_pos hz]
    · rw [if_neg hz]
  | wsMsg pid payload gw now =>
    cases payload with
    | malformed => exact Or.inl ⟨rfl, rfl, rfl⟩
    | json t r s tr =>
      by_cases h1 : t = some "start-transcription"
      · refine Or.inl ⟨?_, by simp [joinPid, h1], rfl⟩
        show (match handleWsMessage gw now st pid (.json t r s tr) with
          | .ok res => res.1
          | .error _ => st).peers = st.peers
        rcases hres : (startTranscription st.ts (jsOrDefault r "default") now).2 with _ | mid <;>
          simp [handleWsMessage, h1, hres]
      · by_cases h2 : t = some "stop-transcription"
        · refine Or.inl ⟨?_, by simp [joinPid, h1, h2], rfl⟩
          show (match handleWsMessage gw now st pid (.json t r s tr) with
            | .ok res => res.1
            | .error _ => st).peers = st.peers
          by_cases hres : (stopTranscription gw st.ts (jsOrDefault r "default")
              ((st.peers.filter fun p => p.roomId ==
                some (jsOrDefault r "default")).length) now).2.1.stopped = true <;>
            simp [handleWsMessage, h1, h2, hres]
        · by_cases h3 : t = some "join"
          · refine Or.inr (Or.inl ⟨⟨pid, s, tr.getD [], some (jsOrDefault r "default")⟩,
              ?_, by simp [joinPid, h3], rfl⟩)
            show (match handleWsMessage gw now st pid (.json t r s tr) with
              | .ok res => res.1
              | .error _ => st).peers = _
            simp [handleWsMessage, h1, h2, h3]
          · refine Or.inl ⟨?_, by simp [joinPid, h1, h2, h3], rfl⟩
            show (match handleWsMessage gw now st pid (.json t r s tr) with
              | .ok res => res.1
              | .error _ => st).peers = st.peers
            simp [handleWsMessage, h1, h2, h3]

/-- One fold step of the spec-side alive predicate. -/
theorem joinedNotClosedFrom_cons (b : Bool) (e : Event) (es : List Event) (id : String) :
    joinedNotClosedFrom b (e :: es) id =
      joinedNotClosedFrom
        (if joinPid e == some id then true
         else if closePid e == some id then false else b) es id := rfl

/-- Registry membership after a run is the spec-side alive predicate,
relative to any starting registry agreeing with the seed. -/
theorem mem_peerIds_runEvents (events : List Event) :
    ∀ st : ServerState, ∀ b : Bool, ∀ id : String,
      (b = true ↔ id ∈ peerIds st.peers) →
      (joinedNotClosedFrom b events id = true ↔
        id ∈ peerIds (runEvents st events).peers) := by
  induction events with
  | nil =>
    intro st b id hb
    exact hb
  | cons e es ih =>
    intro st b id hb
    rw [joinedNotClosedFrom_cons]
    show joinedNotClosedFrom _ es id = true ↔ id ∈ peerIds (runEvents (stepEvent st e) es).peers
    apply ih (stepEvent st e)
    rcases stepEvent_peers st e with ⟨hpe, hj, hc⟩ | ⟨p, hpe, hj, hc⟩ | ⟨pid, hpe, hc, hj⟩
    · rw [hpe, hj, hc]
      simpa using hb
    · rw [hpe, hj, hc]
      rw [mem_peerIds_peersSet]
      by_cases hid : p.id = id
      · simp [hid]
      · have : ((some p.id : Option String) == some id) = false := by simp [hid]
        rw [this]
        simp only [Bool.false_eq_true, if_false]
        constructor
        · intro hbb
          exact Or.inr (hb.mp hbb)
        · intro hm
          rcases hm with h' | h'
          · exact absurd h'.symm hid
          · exact hb.mpr h'
    · rw [hpe, hj, hc]
      rw [mem_peerIds_filter_ne]
      by_cases hid : pid = id
      · simp [hid]
      · have : ((some pid : Option String) == some id) = false := by simp [hid]
        rw [this]
        simp only [Bool.false_eq_true, if_false]
        constructor
        · intro hbb
          exact ⟨hb.mp hbb, fun h' => hid h'.symm⟩
        · intro hm
          exact hb.mpr hm.1
    -- the `joinPid e == some id` branch of the seed update

/-- Id uniqueness in the registry is preserved along any run. -/
theorem nodup_peerIds_runEvents (events : List Event) :
    ∀ st : ServerState, (peerIds st.peers).Nodup →
      (peerIds (runEvents st events).peers).Nodup := by
  induction events with
  | nil => intro st h; exact h
  | cons e es ih =>
    intro st h
    apply ih (stepEvent st e)
    rcases stepEvent_peers st e with ⟨hpe, _, _⟩ | ⟨p, hpe, _, _⟩ | ⟨pid, hpe, _, _⟩
    · rw [hpe]; exact h
    · rw [hpe]; exact nodup_peerIds_peersSet st.peers p h
    · rw [hpe]; exact nodup_peerIds_filter_ne st.peers pid h

/-- An id alive after the fold was either alive at the seed or appears
among the join events. -/
theorem joinedNotClosedFrom_mem_joinIds (events : List Event) :
    ∀ b : Bool, ∀ id : String, joinedNotClosedFrom b events id = true →
      b = true ∨ id ∈ joinIds events := by
  induction events with
  | nil => intro b id h; exact Or.inl h
  | cons e es ih =>
    intro b id h
    rw [joinedNotClosedFrom_cons] at h
    rcases ih _ id h with hb' | hm
    · by_cases hj : (joinPid e == some id) = true
      · right
        unfold joinIds
        rw [List.filterMap_cons]
        rw [beq_iff_eq] at hj
        rw [hj]
        exact List.mem_cons_self _ _
      · rw [if_neg hj] at hb'
        by_cases hc : (closePid e == some id) = true
        · rw [if_pos hc] at hb'
          exact absurd hb' (by simp)
        · rw [if_neg hc] at hb'
          exact Or.inl hb'
    · right
      unfold joinIds
      rw [List.filterMap_cons]
      cases joinPid e with
      | none => exact hm
      | some x => exact List.mem_cons_of_mem x hm

/-- C3 (counterexample): a single channel open is processed — one open,
zero closes — yet the registry holds 0 peers, not 1: peers are registered
by their join message, not on channel open. -/
theorem C3_counterexample :
    ¬((runEvents initState [Event.wsOpen "a"]).peers.length = 1) := by
  decide

/-- C3 (amended): after any event sequence, the peer registry holds
exactly one entry per peer id whose most recent join/close event is a
join: the registered ids are duplicate-free, an id is registered iff it
joined and did not close afterwards, and the total peer count is the
number of distinct such ids among the join events — channel opens do not
register peers, so the count is not opens minus closes. -/
theorem C3_registry_tracks_joins (events : List Event) :
    (peerIds (runEvents initState events).peers).Nodup ∧
    (∀ id : String, id ∈ peerIds (runEvents initState events).peers ↔
      joinedNotClosed events id = true) ∧
    (runEvents initState events).peers.length =
      ((joinIds events).dedup.filter fun id => joinedNotClosed events id).length := by
  have hnd : (peerIds (runEvents initState events).peers).Nodup :=
    nodup_peerIds_runEvents events initState (by simp [peerIds, initState])
  have hmem : ∀ id : String, id ∈ peerIds (runEvents initState events).peers ↔
      joinedNotClosed events id = true := by
    intro id
    exact (mem_peerIds_runEvents events initState false id
      (by simp [peerIds, initState])).symm
  refine ⟨hnd, hmem, ?_⟩
  have hnd' : ((joinIds events).dedup.filter fun id => joinedNotClosed events id).Nodup :=
    (List.nodup_dedup _).filter _
  have hset : (peerIds (runEvents initState events).peers).toFinset =
      ((joinIds events).dedup.filter fun id => joinedNotClosed events id).toFinset := by
    apply Finset.ext
    intro id
    rw [List.mem_toFinset, List.mem_toFinset, List.mem_filter, List.mem_dedup]
    constructor
    · intro hm
      have hj := (hmem id).mp hm
      rcases joinedNotClosedFrom_mem_joinIds events false id hj with hb | hin
      · exact absurd hb (by simp)
      · exact ⟨hin, hj⟩
    · intro ⟨_, hj⟩
      exact (hmem id).mpr hj
  have hlen : (peerIds (runEvents initState events).peers).length =
      ((joinIds events).dedup.filter fun id => joinedNotClosed events id).length := by
    rw [← List.toFinset_card_of_nodup hnd, ← List.toFinset_card_of_nodup hnd', hset]
  rw [← hlen]
  unfold peerIds
  rw [List.length_map]
